import Mathlib

/-
  Verification development for the tfl_data repository.

  Shallow embedding of:
    - src/tfl_data/parse.py  (DataParser: listdir, extract_data, walk_category)
    - src/tfl_data/db.py     (schema tables, DateRange, DatabaseWriter, DatabaseReader)

  Conventions of the embedding:
    - Python strings used as directory/file names are modelled as `List Char`
      (code-point sequences); Python string comparison is code-point
      lexicographic comparison, modelled by `lexLe` below.
    - `datetime` values are modelled by a mixed-radix natural number
      (`mkTimestamp`): the ordering of datetimes is the lexicographic ordering
      on (year, month, day, hour, minute), which `mkTimestamp` preserves as
      long as month, day, hour and minute are below 100 (always the case for
      two-digit fields).
    - The SQLite backend enforces PRIMARY KEY / UNIQUE constraints but, by
      default (and the code never changes that default), does NOT enforce
      FOREIGN KEY or the never-populated status vocabulary table; inserts in
      the model therefore check uniqueness only.
    - Exceptions are modelled with `Except` / `Option` error components;
      a Python generator that raises mid-iteration is modelled by returning
      the pairs yielded so far together with an abort flag.
-/

namespace TflData

/-! ## Names and lexicographic order (Python string comparison) -/

abbrev Name := List Char

/-- Python string `<=`: code-point lexicographic comparison. -/
def lexLe : Name → Name → Bool
  | [], _ => true
  | _ :: _, [] => false
  | a :: as, b :: bs =>
    if a.toNat < b.toNat then true
    else if b.toNat < a.toNat then false
    else lexLe as bs

theorem lexLe_cons (a b : Char) (as bs : Name) :
    lexLe (a :: as) (b :: bs) = true
      ↔ (a.toNat < b.toNat ∨ (a.toNat = b.toNat ∧ lexLe as bs = true)) := by
  simp only [lexLe]
  by_cases h1 : a.toNat < b.toNat
  · simp [h1]
  · by_cases h2 : b.toNat < a.toNat
    · simp only [if_neg h1, if_pos h2]
      constructor
      · intro hx; simp at hx
      · rintro (hx | ⟨hx, _⟩) <;> omega
    · have he : a.toNat = b.toNat := by omega
      simp only [if_neg h1, if_neg h2]
      constructor
      · intro hx; exact Or.inr ⟨he, hx⟩
      · rintro (hx | ⟨_, hx⟩)
        · exact absurd hx h1
        · exact hx

theorem lexLe_total : ∀ a b : Name, lexLe a b = true ∨ lexLe b a = true
  | [], _ => Or.inl rfl
  | _ :: _, [] => Or.inr rfl
  | a :: as, b :: bs => by
    rw [lexLe_cons, lexLe_cons]
    rcases Nat.lt_trichotomy a.toNat b.toNat with h | h | h
    · exact Or.inl (Or.inl h)
    · rcases lexLe_total as bs with ht | ht
      · exact Or.inl (Or.inr ⟨h, ht⟩)
      · exact Or.inr (Or.inr ⟨h.symm, ht⟩)
    · exact Or.inr (Or.inl h)

theorem lexLe_trans : ∀ a b c : Name, lexLe a b = true → lexLe b c = true → lexLe a c = true
  | [], _, _, _, _ => rfl
  | _ :: _, [], _, h, _ => by simp [lexLe] at h
  | _ :: _, _ :: _, [], _, h => by simp [lexLe] at h
  | a :: as, b :: bs, c :: cs, h1, h2 => by
    rw [lexLe_cons] at h1 h2 ⊢
    rcases h1 with h1 | ⟨e1, t1⟩
    · rcases h2 with h2 | ⟨e2, t2⟩
      · exact Or.inl (h1.trans h2)
      · exact Or.inl (by omega)
    · rcases h2 with h2 | ⟨e2, t2⟩
      · exact Or.inl (by omega)
      · exact Or.inr ⟨e1.trans e2, lexLe_trans as bs cs t1 t2⟩

/-! ## Digit strings and `int()` -/

/-- Python `int()` applied to a (digit) string: fold the decimal digits. -/
def digitsVal (s : Name) : Nat :=
  s.foldl (fun acc c => acc * 10 + (c.toNat - 48)) 0

/-- A decimal digit character (code points 48..57). -/
def isDigitC (c : Char) : Prop := 48 ≤ c.toNat ∧ c.toNat ≤ 57

instance (c : Char) : Decidable (isDigitC c) := by unfold isDigitC; infer_instance

theorem digitsVal_go (s : Name) : ∀ z : Nat,
    s.foldl (fun acc c => acc * 10 + (c.toNat - 48)) z
      = z * 10 ^ s.length + digitsVal s := by
  induction s with
  | nil => intro z; simp [digitsVal]
  | cons c cs ih =>
    intro z
    simp only [List.foldl_cons, List.length_cons, digitsVal] at *
    rw [ih (z * 10 + (c.toNat - 48)), ih (0 * 10 + (c.toNat - 48))]
    ring

theorem digitsVal_cons (c : Char) (cs : Name) :
    digitsVal (c :: cs) = (c.toNat - 48) * 10 ^ cs.length + digitsVal cs := by
  show List.foldl _ (0 * 10 + (c.toNat - 48)) cs = _
  rw [digitsVal_go]
  norm_num

theorem digitsVal_lt (s : Name) (h : ∀ c ∈ s, isDigitC c) :
    digitsVal s < 10 ^ s.length := by
  induction s with
  | nil => simp [digitsVal]
  | cons c cs ih =>
    have hc : isDigitC c := h c (List.mem_cons_self ..)
    have hcs := ih (fun x hx => h x (List.mem_cons_of_mem _ hx))
    rw [digitsVal_cons]
    have h9 : c.toNat - 48 ≤ 9 := by
      rcases hc with ⟨_, h2⟩; omega
    have : (c.toNat - 48) * 10 ^ cs.length ≤ 9 * 10 ^ cs.length :=
      Nat.mul_le_mul_right _ h9
    calc (c.toNat - 48) * 10 ^ cs.length + digitsVal cs
        ≤ 9 * 10 ^ cs.length + digitsVal cs := by omega
      _ < 9 * 10 ^ cs.length + 10 ^ cs.length := by omega
      _ = 10 ^ (cs.length + 1) := by ring
      _ = 10 ^ (c :: cs).length := by simp

/-- Uniqueness of mixed-radix decomposition `q * m + r` with `r < m`. -/
theorem mixedRadix_inj (q1 q2 r1 r2 m : Nat) (h1 : r1 < m) (h2 : r2 < m)
    (h : q1 * m + r1 = q2 * m + r2) : q1 = q2 ∧ r1 = r2 := by
  have hm : 0 < m := by omega
  have e1 : (q1 * m + r1) / m = q1 := by
    rw [Nat.mul_comm, Nat.mul_add_div hm, Nat.div_eq_of_lt h1, Nat.add_zero]
  have e2 : (q2 * m + r2) / m = q2 := by
    rw [Nat.mul_comm, Nat.mul_add_div hm, Nat.div_eq_of_lt h2, Nat.add_zero]
  have hq : q1 = q2 := by rw [← e1, ← e2, h]
  refine ⟨hq, ?_⟩
  subst hq
  omega

theorem lexLe_digitsVal : ∀ a b : Name, a.length = b.length →
    (∀ c ∈ a, isDigitC c) → (∀ c ∈ b, isDigitC c) →
    lexLe a b = true → digitsVal a ≤ digitsVal b
  | [], [], _, _, _, _ => le_refl _
  | [], _ :: _, h, _, _, _ => by simp at h
  | _ :: _, [], h, _, _, _ => by simp at h
  | a :: as, b :: bs, hlen, ha, hb, hle => by
    have hlen' : as.length = bs.length := by simpa using hlen
    have hda : isDigitC a := ha a (List.mem_cons_self ..)
    have hdb : isDigitC b := hb b (List.mem_cons_self ..)
    have has : ∀ c ∈ as, isDigitC c := fun c hc => ha c (List.mem_cons_of_mem _ hc)
    have hbs : ∀ c ∈ bs, isDigitC c := fun c hc => hb c (List.mem_cons_of_mem _ hc)
    rw [digitsVal_cons, digitsVal_cons, hlen']
    rcases (lexLe_cons a b as bs).mp hle with h | ⟨he, ht⟩
    · have hlt := digitsVal_lt as has
      rw [hlen'] at hlt
      have hstep : a.toNat - 48 + 1 ≤ b.toNat - 48 := by
        rcases hda with ⟨h1, _⟩; omega
      have hcalc : (a.toNat - 48) * 10 ^ bs.length + digitsVal as
          < (b.toNat - 48) * 10 ^ bs.length + digitsVal bs := by
        calc (a.toNat - 48) * 10 ^ bs.length + digitsVal as
            < (a.toNat - 48) * 10 ^ bs.length + 10 ^ bs.length := by omega
          _ = (a.toNat - 48 + 1) * 10 ^ bs.length := by ring
          _ ≤ (b.toNat - 48) * 10 ^ bs.length := Nat.mul_le_mul_right _ hstep
          _ ≤ (b.toNat - 48) * 10 ^ bs.length + digitsVal bs := Nat.le_add_right _ _
      exact le_of_lt hcalc
    · have := lexLe_digitsVal as bs hlen' has hbs ht
      rw [he]
      omega

theorem digitsVal_inj : ∀ a b : Name, a.length = b.length →
    (∀ c ∈ a, isDigitC c) → (∀ c ∈ b, isDigitC c) →
    digitsVal a = digitsVal b → a = b
  | [], [], _, _, _, _ => rfl
  | [], _ :: _, h, _, _, _ => by simp at h
  | _ :: _, [], h, _, _, _ => by simp at h
  | a :: as, b :: bs, hlen, ha, hb, hv => by
    have hlen' : as.length = bs.length := by simpa using hlen
    have hda : isDigitC a := ha a (List.mem_cons_self ..)
    have hdb : isDigitC b := hb b (List.mem_cons_self ..)
    have has : ∀ c ∈ as, isDigitC c := fun c hc => ha c (List.mem_cons_of_mem _ hc)
    have hbs : ∀ c ∈ bs, isDigitC c := fun c hc => hb c (List.mem_cons_of_mem _ hc)
    rw [digitsVal_cons, digitsVal_cons, hlen'] at hv
    have hva := digitsVal_lt as has
    have hvb := digitsVal_lt bs hbs
    rw [hlen'] at hva
    obtain ⟨hqeq, hreq⟩ := mixedRadix_inj _ _ _ _ _ hva hvb hv
    have htn : a.toNat = b.toNat := by
      rcases hda with ⟨h1, _⟩; rcases hdb with ⟨h2, _⟩; omega
    have hab : a = b := Char.ext (UInt32.ext htn)
    have htl : as = bs := digitsVal_inj as bs hlen' has hbs hreq
    rw [hab, htl]

/-! ## parse.py : listdir, rstrip, extract_data, walk_category -/

/-- parse.py line 11: wrapper around os.listdir which sorts the results.
A directory is modelled as an association list from entry name to entry
content; `listdir` returns the entries sorted by name in Python string
(code-point lexicographic) order. -/
def listdir {α : Type} (entries : List (Name × α)) : List (Name × α) :=
  List.insertionSort (fun a b => lexLe a.1 b.1 = true) entries

instance instTotalLex {α : Type} :
    IsTotal (Name × α) (fun a b => lexLe a.1 b.1 = true) :=
  ⟨fun a b => lexLe_total a.1 b.1⟩

instance instTransLex {α : Type} :
    IsTrans (Name × α) (fun a b => lexLe a.1 b.1 = true) :=
  ⟨fun a b c => lexLe_trans a.1 b.1 c.1⟩

/-- The characters of the Python string literal `'.tar.gz'`, as a set:
`str.rstrip` treats its argument as a set of characters. -/
def tarGzChars : List Char := ['.', 't', 'a', 'r', 'g', 'z']

/-- Python `s.rstrip(cs)`: remove all trailing characters of `s` that belong
to the character set `cs`. -/
def rstripChars (s : Name) (cs : List Char) : Name :=
  (s.reverse.dropWhile (fun c => decide (c ∈ cs))).reverse

/-- parse.py line 30: `json_fname = fname.rstrip('.tar.gz')` — the name of the
archive member that `extract_data` opens inside the extracted archive. -/
def json_fname (fname : Name) : Name :=
  rstripChars fname tarGzChars

/-! ## Snapshot JSON shape (db.py: keys read by the writer) -/

/-- The `disruption` sub-object of a status entry; each field is read with
`.get` and may be absent. -/
structure Disruption where
  category : Option String
  description : Option String
  additionalInfo : Option String
deriving DecidableEq, Repr

/-- One element of a line object's `lineStatuses` array. -/
structure StatusJson where
  statusSeverityDescription : String
  statusSeverity : Int
  reason : Option String
  disruption : Option Disruption
deriving DecidableEq, Repr

/-- One element of the snapshot JSON array: a per-line status object. -/
structure LineJson where
  modeName : String
  name : String
  lineStatuses : List StatusJson
deriving DecidableEq, Repr

/-- The parsed JSON document inside one archive. -/
abbrev Payload := List LineJson

/-! ## Archive files and extract_data -/

/-- The content of one snapshot archive file on disk:
`corrupt` (unreadable or corrupt archive — opening or extracting raises),
`empty` (the decompressed payload is zero-length), or a parsed JSON payload. -/
inductive ArchiveFile where
  | corrupt : ArchiveFile
  | empty : ArchiveFile
  | json : Payload → ArchiveFile
deriving DecidableEq, Repr

/-- parse.py lines 22-38, `DataParser.extract_data`: open and extract the
archive (raising on a corrupt/unreadable file, modelled by `Except.error`),
return `none` for a zero-length payload and the parsed JSON otherwise.
No exception is caught inside `extract_data`. -/
def extract_data : ArchiveFile → Except Unit (Option Payload)
  | .corrupt => .error ()
  | .empty => .ok none
  | .json p => .ok (some p)

/-! ## walk_category

A directory level is an association list from entry name to content.
`walk_category` iterates the four levels in `listdir` (sorted) order; a raised
exception aborts the generator, so the model returns the list of pairs yielded
so far together with an abort flag (`true` = the walk raised). -/

abbrev DayDir := List (Name × ArchiveFile)
abbrev MonthDir := List (Name × DayDir)
abbrev YearDir := List (Name × MonthDir)
abbrev CategoryDir := List (Name × YearDir)

/-- One loop level of `walk_category`: run the body `f` on each entry in
order; if the body aborts (raises), the iteration stops there, keeping the
pairs already yielded. -/
def walkList {α : Type} (f : Name × α → List (Nat × Option Payload) × Bool) :
    List (Name × α) → List (Nat × Option Payload) × Bool
  | [] => ([], false)
  | x :: rest =>
    let r := f x
    if r.2 then r
    else
      let r2 := walkList f rest
      (r.1 ++ r2.1, r2.2)

/-- parse.py lines 56-58: `hour = fname[11:13]`, `minute = fname[14:16]`,
`dt = datetime(int(year), int(month), int(day), int(hour), int(minute))`.
The datetime is modelled by a mixed-radix natural number preserving the
lexicographic order of its components (fields below 100). -/
def mkTimestamp (y m d h mi : Nat) : Nat :=
  (((y * 100 + m) * 100 + d) * 100 + h) * 100 + mi

/-- The timestamp parsed for one file: hour from characters 11-12 of the file
name, minute from characters 14-15. -/
def tsOfFile (y m d : Nat) (fname : Name) : Nat :=
  mkTimestamp y m d (digitsVal ((fname.drop 11).take 2)) (digitsVal ((fname.drop 14).take 2))

/-- The innermost loop body of `walk_category`: parse the timestamp, call
`extract_data` and yield `(dt, data)`; a raised exception aborts. -/
def walkFile (y m d : Nat) (ent : Name × ArchiveFile) :
    List (Nat × Option Payload) × Bool :=
  match extract_data ent.2 with
  | .error _ => ([], true)
  | .ok p => ([(tsOfFile y m d ent.1, p)], false)

/-- parse.py lines 41-60, `DataParser.walk_category`: four nested loops over
`listdir` (sorted) entries, yielding `(datetime, data)` for each file. -/
def walk_category (root : CategoryDir) : List (Nat × Option Payload) × Bool :=
  walkList (fun y =>
    walkList (fun m =>
      walkList (fun d =>
        walkList (walkFile (digitsVal y.1) (digitsVal m.1) (digitsVal d.1)) (listdir d.2))
        (listdir m.2))
      (listdir y.2))
    (listdir root)

/-! ### A flattened view of the traversal (for reasoning) -/

/-- The files of one day directory, in traversal order, paired with their
parsed timestamps. -/
def filesBlock (y m d : Nat) (files : DayDir) : List (Nat × ArchiveFile) :=
  (listdir files).map (fun f => (tsOfFile y m d f.1, f.2))

/-- The files of one month directory in traversal order. -/
def daysBlock (y m : Nat) (days : MonthDir) : List (Nat × ArchiveFile) :=
  (listdir days).flatMap (fun dd => filesBlock y m (digitsVal dd.1) dd.2)

/-- The files of one year directory in traversal order. -/
def monthsBlock (y : Nat) (months : YearDir) : List (Nat × ArchiveFile) :=
  (listdir months).flatMap (fun md => daysBlock y (digitsVal md.1) md.2)

/-- All files of the category directory in traversal order. -/
def flatFiles (root : CategoryDir) : List (Nat × ArchiveFile) :=
  (listdir root).flatMap (fun yd => monthsBlock (digitsVal yd.1) yd.2)

/-- Processing a flat list of (timestamp, archive) files in order, aborting at
the first corrupt archive. -/
def runFiles : List (Nat × ArchiveFile) → List (Nat × Option Payload) × Bool
  | [] => ([], false)
  | (ts, af) :: rest =>
    match extract_data af with
    | .error _ => ([], true)
    | .ok p =>
      let r := runFiles rest
      ((ts, p) :: r.1, r.2)

theorem runFiles_append (a b : List (Nat × ArchiveFile)) :
    runFiles (a ++ b)
      = if (runFiles a).2 then runFiles a
        else ((runFiles a).1 ++ (runFiles b).1, (runFiles b).2) := by
  induction a with
  | nil => simp [runFiles]
  | cons x rest ih =>
    obtain ⟨ts, af⟩ := x
    cases haf : extract_data af with
    | error e => simp [runFiles, haf]
    | ok p =>
      simp only [List.cons_append, runFiles, haf, List.append_eq]
      rw [ih]
      by_cases h2 : (runFiles rest).2 <;> simp [h2]

theorem walkList_eq_runFiles {α : Type}
    (f : Name × α → List (Nat × Option Payload) × Bool)
    (g : Name × α → List (Nat × ArchiveFile))
    (hfg : ∀ x, f x = runFiles (g x)) :
    ∀ xs : List (Name × α), walkList f xs = runFiles (xs.flatMap g) := by
  intro xs
  induction xs with
  | nil => simp [walkList, runFiles]
  | cons x rest ih =>
    simp only [walkList, List.flatMap_cons, hfg x, ih]
    rw [runFiles_append]

theorem walkFile_eq_runFiles (y m d : Nat) (ent : Name × ArchiveFile) :
    walkFile y m d ent = runFiles [(tsOfFile y m d ent.1, ent.2)] := by
  cases haf : extract_data ent.2 with
  | error e => simp [walkFile, runFiles, haf]
  | ok p => simp [walkFile, runFiles, haf]

/-- The nested traversal equals processing the flattened, sorted file list in
order with abort-at-first-corrupt-archive semantics. -/
theorem walk_category_eq_runFiles (root : CategoryDir) :
    walk_category root = runFiles (flatFiles root) := by
  unfold walk_category flatFiles
  apply walkList_eq_runFiles
  intro yd
  unfold monthsBlock
  apply walkList_eq_runFiles
  intro md
  unfold daysBlock
  apply walkList_eq_runFiles
  intro dd
  unfold filesBlock
  have hmap : (listdir dd.2).map
      (fun f => (tsOfFile (digitsVal yd.1) (digitsVal md.1) (digitsVal dd.1) f.1, f.2))
      = (listdir dd.2).flatMap
        (fun f => [(tsOfFile (digitsVal yd.1) (digitsVal md.1) (digitsVal dd.1) f.1, f.2)]) := by
    induction listdir dd.2 with
    | nil => rfl
    | cons x rest ih => simp [ih]
  rw [hmap]
  apply walkList_eq_runFiles
  intro ent
  exact walkFile_eq_runFiles (digitsVal yd.1) (digitsVal md.1) (digitsVal dd.1) ent

/-! ## db.py: schema rows and database state -/

/-- db.py lines 16-19: the mode names and status descriptions observed in the
data (the bounded, known vocabulary). -/
def MODES : List String :=
  ["bus", "national-rail", "tube", "river-bus", "dlr", "cable-car", "overground",
   "tflrail", "tram", "elizabeth-line"]

def STATUSES : List String :=
  ["Good Service", "Minor Delays", "Severe Delays", "Special Service",
   "Reduced Service", "No Service", "Suspended", "Part Suspended",
   "Service Closed", "Planned Closure", "Part Closure", "Bus Service"]

/-- A row of `line_observation` (db.py lines 39-47): autoincrement id,
timestamp, mode, line; UNIQUE (timestamp, mode, line). -/
structure ObsRow where
  id : Nat
  timestamp : Nat
  mode : String
  line : String
deriving DecidableEq, Repr

/-- A row of `line_status` (db.py lines 57-68): autoincrement id, parent
observation id, description (declared FK to status.description), severity,
optional reason and disruption fields. -/
structure StatusRow where
  id : Nat
  parent : Nat
  description : String
  severity : Int
  reason : Option String
  disruption_category : Option String
  disruption_description : Option String
  disruption_additional_info : Option String
deriving DecidableEq, Repr

/-- The database state: the four tables plus the autoincrement counters.
SQLite (as configured by the code) enforces PRIMARY KEY and UNIQUE
constraints; FOREIGN KEY constraints are declared in the schema but not
enforced, because the code never turns on SQLite foreign-key enforcement. -/
structure DB where
  mode_table : List String
  line_table : List (String × String)
  status_table : List String
  line_observation_table : List ObsRow
  line_status_table : List StatusRow
  next_obs_id : Nat
  next_status_id : Nat
deriving DecidableEq, Repr

def emptyDB : DB :=
  { mode_table := [], line_table := [], status_table := [],
    line_observation_table := [], line_status_table := [],
    next_obs_id := 0, next_status_id := 0 }

inductive DbError where
  | uniqueViolation : DbError
deriving DecidableEq, Repr

/-- The statement `INSERT INTO mode (name) VALUES (...)`: `name` is the primary key, so a
duplicate is rejected. -/
def insertMode (db : DB) (name : String) : Except DbError DB :=
  if name ∈ db.mode_table then .error .uniqueViolation
  else .ok { db with mode_table := db.mode_table ++ [name] }

/-- The statement `INSERT INTO line (mode, line) VALUES (...)`: UNIQUE (mode, line). -/
def insertLine (db : DB) (mode line : String) : Except DbError DB :=
  if (mode, line) ∈ db.line_table then .error .uniqueViolation
  else .ok { db with line_table := db.line_table ++ [(mode, line)] }

/-- The statement `INSERT INTO line_observation (timestamp, mode, line) VALUES (...)`:
UNIQUE (timestamp, mode, line); on success returns the new state and the
generated primary key (`result.inserted_primary_key[0]`). -/
def insertObservation (db : DB) (ts : Nat) (mode line : String) :
    Except DbError (DB × Nat) :=
  if ∃ r ∈ db.line_observation_table, r.timestamp = ts ∧ r.mode = mode ∧ r.line = line then
    .error .uniqueViolation
  else
    .ok ({ db with
            line_observation_table :=
              db.line_observation_table ++ [⟨db.next_obs_id, ts, mode, line⟩],
            next_obs_id := db.next_obs_id + 1 },
         db.next_obs_id)

/-- The statement `INSERT INTO line_status (...)`: the autoincrement id is always fresh and
the declared foreign keys are not enforced, so the insert always succeeds. -/
def insertStatusRow (db : DB) (row : Nat → StatusRow) : DB :=
  { db with
    line_status_table := db.line_status_table ++ [row db.next_status_id],
    next_status_id := db.next_status_id + 1 }

/-! ## db.py: DatabaseWriter -/

/-- The writer: the database plus the in-memory `_lines_cache` (a dict from
mode name to the set of known line names).  The `inserted_modes` and
`inserted_lines` fields are ghost instrumentation recording the rows this
writer instance has successfully inserted; they receive exactly the rows
whose INSERT succeeded and influence nothing. -/
structure Writer where
  db : DB
  lines_cache : List (String × List String)
  inserted_modes : List String
  inserted_lines : List (String × String)
deriving DecidableEq, Repr

/-- Model of `DatabaseWriter.__init__` (db.py lines 111-113): a fresh instance starts
with an empty cache. -/
def freshWriter (db : DB) : Writer :=
  { db := db, lines_cache := [], inserted_modes := [], inserted_lines := [] }

/-- Update a dict entry (`self._lines_cache[mode] = ...`). -/
def cacheSet (cache : List (String × List String)) (m : String) (ls : List String) :
    List (String × List String) :=
  (m, ls) :: cache.filter (fun p => p.1 ≠ m)

/-- db.py lines 118-126, `DatabaseWriter.add_mode_line`:
if the mode is not cached, insert the mode row then the line row and cache
them; else if the line is not cached for that mode, insert the line row and
cache it; else do nothing.  An insert hitting a constraint raises
(`some` error); state changes made before the raise persist. -/
def add_mode_line (w : Writer) (mode line : String) : Writer × Option DbError :=
  match w.lines_cache.lookup mode with
  | none =>
    match insertMode w.db mode with
    | .error e => (w, some e)
    | .ok db1 =>
      match insertLine db1 mode line with
      | .error e =>
        ({ w with db := db1, inserted_modes := w.inserted_modes ++ [mode] }, some e)
      | .ok db2 =>
        ({ db := db2,
           lines_cache := cacheSet w.lines_cache mode [line],
           inserted_modes := w.inserted_modes ++ [mode],
           inserted_lines := w.inserted_lines ++ [(mode, line)] }, none)
  | some ls =>
    if line ∈ ls then (w, none)
    else
      match insertLine w.db mode line with
      | .error e => (w, some e)
      | .ok db1 =>
        ({ w with
            db := db1
            lines_cache := cacheSet w.lines_cache mode (ls ++ [line])
            inserted_lines := w.inserted_lines ++ [(mode, line)] }, none)

/-- The `line_status` row built from one status JSON object (db.py
lines 128-144): `disruption = status.get("disruption", {})` then `.get` of
each optional sub-field. -/
def statusRowOf (parent_id : Nat) (s : StatusJson) (rowId : Nat) : StatusRow :=
  { id := rowId,
    parent := parent_id,
    description := s.statusSeverityDescription,
    severity := s.statusSeverity,
    reason := s.reason,
    disruption_category := s.disruption.bind (fun d => d.category),
    disruption_description := s.disruption.bind (fun d => d.description),
    disruption_additional_info := s.disruption.bind (fun d => d.additionalInfo) }

/-- db.py lines 128-146, `DatabaseWriter.add_line_status`: insert one
`line_status` row (always succeeds: fresh autoincrement id, foreign keys not
enforced). -/
def add_line_status (w : Writer) (parent_id : Nat) (s : StatusJson) : Writer :=
  { w with db := insertStatusRow w.db (statusRowOf parent_id s) }

/-- The `for s in line["lineStatuses"]` loop of `add_line_observation`:
returns the writer and the number of status rows added. -/
def add_line_statuses (w : Writer) (parent_id : Nat) :
    List StatusJson → Writer × Nat
  | [] => (w, 0)
  | s :: rest =>
    let r := add_line_statuses (add_line_status w parent_id s) parent_id rest
    (r.1, r.2 + 1)

/-- db.py lines 148-165, `DatabaseWriter.add_line_observation`: add mode/line
reference rows, insert the observation row (raising on a duplicate
(timestamp, mode, line)), then insert one status row per entry of
`lineStatuses`.  Returns the number of status rows added; a raised error is
the `Option DbError` component. -/
def add_line_observation (w : Writer) (ts : Nat) (line : LineJson) :
    Writer × Option DbError × Nat :=
  let r := add_mode_line w line.modeName line.name
  match r.2 with
  | some e => (r.1, some e, 0)
  | none =>
    match insertObservation r.1.db ts line.modeName line.name with
    | .error e => (r.1, some e, 0)
    | .ok (db2, pk) =>
      let w2 := { r.1 with db := db2 }
      let r2 := add_line_statuses w2 pk line.lineStatuses
      (r2.1, none, r2.2)

/-- db.py lines 167-174, `DatabaseWriter.add_from_dict`: add every line
object of one parsed file; an exception raised for one line propagates,
aborting the loop (lines after it are not processed). -/
def add_from_dict (w : Writer) (ts : Nat) : List LineJson → Writer × Option DbError × Nat
  | [] => (w, none, 0)
  | l :: rest =>
    match add_line_observation w ts l with
    | (w1, some e, c) => (w1, some e, c)
    | (w1, none, c) =>
      let r := add_from_dict w1 ts rest
      (r.1, r.2.1, c + r.2.2)

/-- The `for dt, d in parser.walk_category("lines")` loop of `add_from_data`
(db.py lines 180-183): `None` payloads are skipped; a database exception
aborts the loop. -/
def add_pairs (w : Writer) : List (Nat × Option Payload) → Writer × Option DbError × Nat
  | [] => (w, none, 0)
  | (_, none) :: rest => add_pairs w rest
  | (ts, some d) :: rest =>
    match add_from_dict w ts d with
    | (w1, some e, c) => (w1, some e, c)
    | (w1, none, c) =>
      let r := add_pairs w1 rest
      (r.1, r.2.1, c + r.2.2)

/-- db.py lines 176-186, `DatabaseWriter.add_from_data`: walk the `lines`
category and ingest every yielded pair.  The final `Bool` records whether the
walker itself aborted (its exception also propagates out of the loop). -/
def add_from_data (w : Writer) (root : CategoryDir) :
    Writer × Option DbError × Nat × Bool :=
  let p := walk_category root
  let r := add_pairs w p.1
  (r.1, r.2.1, r.2.2, p.2)

/-! ## db.py: DateRange and DatabaseReader -/

/-- db.py lines 71-89, `DateRange`: a datetime range with inclusive `start`
and exclusive `end` (named `stop` here because `end` is reserved in Lean). -/
structure DateRange where
  start : Nat
  stop : Nat
deriving DecidableEq, Repr

/-- db.py lines 83-84, `DateRange.__contains__`:
`self.start <= item < self.end`. -/
def DateRange.mem (dr : DateRange) (t : Nat) : Prop :=
  dr.start ≤ t ∧ t < dr.stop

instance (dr : DateRange) (t : Nat) : Decidable (dr.mem t) := by
  unfold DateRange.mem; infer_instance

/-- The optional filters of `query_observations` (db.py lines 202-208). -/
structure Filters where
  date_range : Option DateRange
  modes : Option (List String)
  lines : Option (List String)
  statuses : Option (List String)
deriving DecidableEq, Repr

def noFilters : Filters :=
  { date_range := none, modes := none, lines := none, statuses := none }

/-- The rows of `line_observation JOIN line_status` with the join condition
inferred from the foreign key: `line_status.parent = line_observation.id`
(db.py lines 218-223, `join_from`). -/
def joinedRows (db : DB) : List (ObsRow × StatusRow) :=
  db.line_observation_table.flatMap (fun o =>
    (db.line_status_table.filter (fun s => decide (s.parent = o.id))).map (fun s => (o, s)))

/-- The WHERE predicate accumulated by `query_observations`
(db.py lines 225-234): each given filter constrains the joined row;
unselected filters impose no constraint. -/
def matchRow (fs : Filters) (r : ObsRow × StatusRow) : Bool :=
  (match fs.date_range with
   | none => true
   | some dr => decide (dr.start ≤ r.1.timestamp) && decide (r.1.timestamp < dr.stop)) &&
  (match fs.modes with
   | none => true
   | some ms => decide (r.1.mode ∈ ms)) &&
  (match fs.lines with
   | none => true
   | some ls => decide (r.1.line ∈ ls)) &&
  (match fs.statuses with
   | none => true
   | some ss => decide (r.2.description ∈ ss))

/-- db.py lines 202-236, `DatabaseReader.query_observations`: the shared
query — the join of `line_observation` with `line_status` restricted by the
accumulated WHERE predicate.  (The trailing `.distinct()` applies to whatever
is selected; it is applied by the two callers below to their own select
lists.) -/
def query_observations (db : DB) (fs : Filters) : List (ObsRow × StatusRow) :=
  (joinedRows db).filter (matchRow fs)

/-- db.py lines 238-246, `DatabaseReader.get_observations`: execute the
shared query selecting `*`, i.e. `SELECT DISTINCT *` over the joined rows —
every column of both tables participates in the DISTINCT. -/
def get_observations (db : DB) (fs : Filters) : List (ObsRow × StatusRow) :=
  (query_observations db fs).dedup

/-- db.py lines 248-256, `DatabaseReader.count_observations`: execute the
shared query selecting `count()`, i.e. `SELECT DISTINCT count(*)`: the
aggregate counts every joined row matching the WHERE predicate (the DISTINCT
applies to the single aggregate result row, not inside the count). -/
def count_observations (db : DB) (fs : Filters) : Nat :=
  (query_observations db fs).length

/-- Well-formedness delivered by the autoincrement primary keys: all
observation ids are distinct and all status ids are distinct. -/
def wellFormedDB (db : DB) : Prop :=
  (db.line_observation_table.map (fun r => r.id)).Nodup ∧
  (db.line_status_table.map (fun r => r.id)).Nodup

/-! ## Theorems about the query layer (C1, C2, C6) -/

/-- In a well-formed database the joined rows are pairwise distinct: every
joined row contains the status row's unique autoincrement id. -/
theorem nodup_joinedRows {db : DB} (h : wellFormedDB db) : (joinedRows db).Nodup := by
  obtain ⟨ho, hs⟩ := h
  unfold joinedRows
  rw [List.nodup_flatMap]
  refine ⟨?_, ?_⟩
  · intro o _
    refine List.Nodup.map ?_ (List.Nodup.filter _ hs.of_map)
    intro s1 s2 hss
    simpa using hss
  · have hp : List.Pairwise (fun o1 o2 : ObsRow => o1.id ≠ o2.id)
        db.line_observation_table := by
      have h2 := ho
      rw [List.Nodup, List.pairwise_map] at h2
      exact h2
    refine hp.imp ?_
    intro o1 o2 hne
    simp only [Function.onFun]
    intro x hx1 hx2
    simp only [List.mem_map, List.mem_filter] at hx1 hx2
    obtain ⟨s1, _, rfl⟩ := hx1
    obtain ⟨s2, _, he⟩ := hx2
    have ho12 : o2 = o1 := congrArg Prod.fst he
    exact hne (congrArg ObsRow.id ho12.symm)

/-- C1: for every combination of the optional filters, the scalar returned by
`count_observations` equals the number of rows returned by
`get_observations` with the same filters: both are derived from the single
shared predicate built by `query_observations` (`count(*)` counts every
matching joined row, and `SELECT DISTINCT *` removes nothing because each
joined row carries the status row's unique id), so they can never disagree on
which observations match. -/
theorem C1_count_eq_get_length (db : DB) (fs : Filters) (h : wellFormedDB db) :
    count_observations db fs = (get_observations db fs).length := by
  unfold count_observations get_observations
  have hn : (query_observations db fs).Nodup :=
    List.Nodup.filter _ (nodup_joinedRows h)
  rw [List.dedup_eq_self.mpr hn]

/-- A small concrete database: one observation with one status row. -/
def exDB1 : DB :=
  { mode_table := ["tube"], line_table := [("tube", "victoria")], status_table := [],
    line_observation_table := [⟨0, 100, "tube", "victoria"⟩],
    line_status_table := [⟨0, 0, "Good Service", 10, none, none, none, none⟩],
    next_obs_id := 1, next_status_id := 1 }

theorem C1_count_eq_get_length_witness :
    wellFormedDB exDB1 ∧
      count_observations exDB1 noFilters = (get_observations exDB1 noFilters).length :=
  ⟨by constructor <;> decide, C1_count_eq_get_length exDB1 noFilters (by constructor <;> decide)⟩

/-- One line object whose status list holds two distinct status rows that are
both described "Suspended" (e.g. two suspended segments with different
reasons), as ingested by the writer. -/
def dupStatusLine : LineJson :=
  { modeName := "tube", name := "victoria",
    lineStatuses :=
      [ { statusSeverityDescription := "Suspended", statusSeverity := 4,
          reason := some "signal failure", disruption := none },
        { statusSeverityDescription := "Suspended", statusSeverity := 4,
          reason := some "flooding", disruption := none } ] }

/-- The database produced by ingesting that single line object. -/
def exDB2 : DB :=
  (add_from_dict (freshWriter emptyDB) 100 [dupStatusLine]).1.db

def suspFilter : Filters :=
  { noFilters with statuses := some ["Suspended"] }

/-- C2 evaluated at the failing input: the database holds exactly one
observation, which has two status rows both described "Suspended"; querying
with `statuses={"Suspended"}` returns that single observation TWICE (one
joined row per matching status): `SELECT DISTINCT *` over the join does not
deduplicate at observation grain, because the two joined rows differ in the
status row's unique id.  The claim (and the code's own intent of returning
"all observations meeting the specified criteria", deduplicated) says the
observation must appear exactly once. -/
theorem C2_failing_input_eval :
    exDB2.line_observation_table.length = 1 ∧
    (get_observations exDB2 suspFilter).length = 2 ∧
    (get_observations exDB2 suspFilter).map (fun r => r.1.id) = [0, 0] := by
  refine ⟨by decide, by decide, by decide⟩

/-- The predicate `matchRow` with a date-range filter factors into the same predicate
without the range conjoined with `DateRange` membership of the timestamp. -/
theorem matchRow_date_range (fs : Filters) (dr : DateRange) (r : ObsRow × StatusRow)
    (h : fs.date_range = some dr) :
    matchRow fs r = true ↔
      (matchRow { fs with date_range := none } r = true ∧ dr.mem r.1.timestamp) := by
  unfold matchRow
  rw [h]
  simp only [Bool.and_eq_true, decide_eq_true_eq, DateRange.mem]
  tauto

/-- C6: for every query given a date range, the time filter is half-open
`[start, end)`: membership in the results is membership under the remaining
filters conjoined with `DateRange` membership (the same rule), an observation
whose timestamp equals `start` satisfies the range (whenever the range is
nonempty), and one whose timestamp equals `end` never does. -/
theorem C6_half_open_range (db : DB) (fs : Filters) (dr : DateRange)
    (r : ObsRow × StatusRow) (h : fs.date_range = some dr) :
    (r ∈ get_observations db fs ↔
      (r ∈ get_observations db { fs with date_range := none } ∧ dr.mem r.1.timestamp))
    ∧ (dr.start < dr.stop → dr.mem dr.start)
    ∧ ¬ dr.mem dr.stop := by
  refine ⟨?_, fun hlt => ⟨le_refl _, hlt⟩, fun hmem => lt_irrefl _ hmem.2⟩
  unfold get_observations query_observations
  simp only [List.mem_dedup, List.mem_filter]
  rw [matchRow_date_range fs dr r h]
  tauto

theorem C6_half_open_range_witness :
    ((⟨0, 100, "tube", "victoria"⟩, ⟨0, 0, "Good Service", 10, none, none, none, none⟩)
        ∈ get_observations exDB1 { noFilters with date_range := some ⟨100, 200⟩ } ↔
      ((⟨0, 100, "tube", "victoria"⟩, ⟨0, 0, "Good Service", 10, none, none, none, none⟩)
          ∈ get_observations exDB1 noFilters ∧ DateRange.mem ⟨100, 200⟩ 100))
    ∧ ((100 : Nat) < 200 → DateRange.mem ⟨100, 200⟩ 100)
    ∧ ¬ DateRange.mem ⟨100, 200⟩ 200 :=
  C6_half_open_range exDB1 { noFilters with date_range := some ⟨100, 200⟩ }
    ⟨100, 200⟩ _ rfl

/-! ## Theorems about `json_fname` (C9) -/

theorem dropWhile_append_of_all {p : Char → Bool} :
    ∀ a b : List Char, (∀ x ∈ a, p x = true) →
      List.dropWhile p (a ++ b) = List.dropWhile p b
  | [], _, _ => rfl
  | x :: a, b, h => by
    have hx : p x = true := h x (List.mem_cons_self ..)
    simp only [List.cons_append, List.dropWhile_cons, hx, if_true]
    exact dropWhile_append_of_all a b (fun y hy => h y (List.mem_cons_of_mem _ hy))

theorem dropWhile_length_le {p : Char → Bool} :
    ∀ l : List Char, (List.dropWhile p l).length ≤ l.length
  | [] => le_refl _
  | x :: xs => by
    simp only [List.dropWhile_cons]
    by_cases hx : p x = true
    · simp only [hx, if_true, List.length_cons]
      exact le_trans (dropWhile_length_le xs) (Nat.le_succ _)
    · simp [hx]

theorem dropWhile_eq_self_iff_head {p : Char → Bool} :
    ∀ l : List Char, List.dropWhile p l = l ↔ (∀ c, l.head? = some c → p c = false)
  | [] => by simp
  | x :: xs => by
    simp only [List.dropWhile_cons, List.head?_cons]
    by_cases hx : p x = true
    · simp only [hx, if_true]
      constructor
      · intro hdrop
        exfalso
        have hlen := @dropWhile_length_le p xs
        rw [hdrop] at hlen
        simp at hlen
      · intro hall
        have := hall x rfl
        rw [this] at hx
        cases hx
    · have hx' : p x = false := by
        cases hpx : p x
        · rfl
        · exact absurd hpx hx
      have hif : (if p x = true then List.dropWhile p xs else x :: xs) = x :: xs := by
        rw [hx']
        simp
      rw [hif]
      constructor
      · intro _ c hc
        injection hc with hc2
        rw [← hc2]
        exact hx'
      · intro _
        rfl

/-- Stripping the character set never changes a string whose last character
is outside the set, and always changes one whose last character is inside
it. -/
theorem rstripChars_eq_self_iff (s : Name) (cs : List Char) :
    rstripChars s cs = s ↔ (∀ c, s.getLast? = some c → c ∉ cs) := by
  unfold rstripChars
  rw [List.reverse_eq_iff]
  rw [dropWhile_eq_self_iff_head s.reverse]
  rw [List.head?_reverse]
  constructor
  · intro h c hc
    have := h c hc
    simpa using this
  · intro h c hc
    have := h c hc
    simpa using this

theorem rstripChars_append_all (s t : Name) (cs : List Char)
    (h : ∀ c ∈ t, c ∈ cs) : rstripChars (s ++ t) cs = rstripChars s cs := by
  unfold rstripChars
  rw [List.reverse_append]
  rw [dropWhile_append_of_all t.reverse s.reverse]
  intro x hx
  rw [List.mem_reverse] at hx
  simpa using h x hx

/-- C9: for every archive path, `extract_data` computes the inner JSON member
name as `fname.rstrip('.tar.gz')`, which removes ALL trailing characters in
the set of that string's characters; for a basename `s ++ ".tar.gz"`, the
member name equals `s` (the basename with the literal suffix removed) if and
only if `s` does not itself end with one of `'.','t','a','r','g','z'` —
otherwise the member name opened differs from basename-minus-suffix. -/
theorem C9_json_fname_rstrip (s : Name) :
    json_fname (s ++ ".tar.gz".data) = s ↔
      (∀ c, s.getLast? = some c → c ∉ tarGzChars) := by
  unfold json_fname
  rw [rstripChars_append_all s (".tar.gz".data) tarGzChars (by decide)]
  exact rstripChars_eq_self_iff s tarGzChars

/-- Instantiation of C9: a stem ending in a safe character round-trips, while
the stem "canada-water" (ending in 'r') yields a different member name. -/
theorem C9_json_fname_rstrip_witness :
    json_fname ("status_2023.tar.gz".data) = "status_2023".data ∧
      ¬ json_fname ("canada-water.tar.gz".data) = "canada-water".data := by
  constructor
  · exact (C9_json_fname_rstrip ("status_2023".data)).mpr (by decide)
  · intro h
    have hiff := (C9_json_fname_rstrip ("canada-water".data)).mp h
    have hr := hiff 'r' (by decide)
    exact hr (by decide)

/-! ## Theorems about the walker's failure behaviour (C3) -/

/-- The payload yielded for a non-corrupt archive: `none` for a zero-length
payload, the parsed JSON otherwise. -/
def okPayload : ArchiveFile → Option Payload
  | .corrupt => none
  | .empty => none
  | .json p => some p

theorem extract_data_of_not_corrupt {af : ArchiveFile} (h : af ≠ ArchiveFile.corrupt) :
    extract_data af = .ok (okPayload af) := by
  cases af with
  | corrupt => exact absurd rfl h
  | empty => rfl
  | json p => rfl

theorem runFiles_until_corrupt (c : Nat) (post : List (Nat × ArchiveFile)) :
    ∀ a : List (Nat × ArchiveFile), (∀ x ∈ a, x.2 ≠ ArchiveFile.corrupt) →
      runFiles (a ++ (c, ArchiveFile.corrupt) :: post)
        = (a.map (fun x => (x.1, okPayload x.2)), true)
  | [], _ => by simp [runFiles, extract_data]
  | x :: a, h => by
    obtain ⟨ts, af⟩ := x
    have hx : af ≠ ArchiveFile.corrupt := h (ts, af) (List.mem_cons_self ..)
    have ha : ∀ y ∈ a, y.2 ≠ ArchiveFile.corrupt :=
      fun y hy => h y (List.mem_cons_of_mem _ hy)
    simp only [List.cons_append, runFiles, extract_data_of_not_corrupt hx, List.append_eq,
      runFiles_until_corrupt c post a ha, List.map_cons]

/-- A concrete data root: one year/month/day holding two files, the first
corrupt, the second a readable snapshot. -/
def exTree : CategoryDir :=
  [("2023".data,
    [("01".data,
      [("05".data,
        [("2023-01-05T07:30:00.tar.gz".data, ArchiveFile.corrupt),
         ("2023-01-05T08:00:00.tar.gz".data, ArchiveFile.json [])])])])]

/-- C3 counterexample: on `exTree` the walk over the category yields NO pairs
and aborts — the corrupt timestamp 2023-01-05T07:30 is not yielded as
`(timestamp, None)` and the subsequent readable file at 08:00 is never
reached, contradicting the claim that the failure is logged, the timestamp is
yielded as `(timestamp, None)` and the walker continues. -/
theorem C3_counterexample :
    walk_category exTree = ([], true) ∧
    (mkTimestamp 2023 1 5 7 30, (none : Option Payload)) ∉ (walk_category exTree).1 ∧
    (mkTimestamp 2023 1 5 8 0, (some [] : Option Payload)) ∉ (walk_category exTree).1 := by
  have h : walk_category exTree = ([], true) := by decide
  refine ⟨h, ?_, ?_⟩ <;> rw [h] <;> simp

/-- C3 amended: an unreadable or corrupt archive ABORTS the walk over the
'lines' category: the pairs for the files (in traversal order) before the
first corrupt archive are yielded — zero-length archives among them as
`(timestamp, None)` — the corrupt file's timestamp is not yielded at all, and
no later file is processed. -/
theorem C3_amended_corrupt_aborts (root : CategoryDir)
    (a : List (Nat × ArchiveFile)) (c : Nat) (post : List (Nat × ArchiveFile))
    (hsplit : flatFiles root = a ++ (c, ArchiveFile.corrupt) :: post)
    (hok : ∀ x ∈ a, x.2 ≠ ArchiveFile.corrupt) :
    walk_category root = (a.map (fun x => (x.1, okPayload x.2)), true) := by
  rw [walk_category_eq_runFiles, hsplit]
  exact runFiles_until_corrupt c post a hok

theorem C3_amended_corrupt_aborts_witness :
    walk_category exTree = ([], true) :=
  C3_amended_corrupt_aborts exTree []
    (mkTimestamp 2023 1 5 7 30)
    [(mkTimestamp 2023 1 5 8 0, ArchiveFile.json [])]
    (by decide) (by intro x hx; cases hx)

/-! ## Inversion and preservation lemmas for the writer -/

theorem insertMode_ok {db : DB} {n : String} {db' : DB}
    (h : insertMode db n = .ok db') :
    n ∉ db.mode_table ∧ db' = { db with mode_table := db.mode_table ++ [n] } := by
  unfold insertMode at h
  split_ifs at h with hc
  simp only [Except.ok.injEq] at h
  exact ⟨hc, h.symm⟩

theorem insertMode_error {db : DB} {n : String} {e : DbError}
    (h : insertMode db n = .error e) : n ∈ db.mode_table := by
  unfold insertMode at h
  split_ifs at h with hc
  exact hc

theorem insertLine_ok {db : DB} {m l : String} {db' : DB}
    (h : insertLine db m l = .ok db') :
    (m, l) ∉ db.line_table ∧ db' = { db with line_table := db.line_table ++ [(m, l)] } := by
  unfold insertLine at h
  split_ifs at h with hc
  simp only [Except.ok.injEq] at h
  exact ⟨hc, h.symm⟩

theorem insertLine_error {db : DB} {m l : String} {e : DbError}
    (h : insertLine db m l = .error e) : (m, l) ∈ db.line_table := by
  unfold insertLine at h
  split_ifs at h with hc
  exact hc

theorem insertObservation_ok {db : DB} {ts : Nat} {m l : String} {db' : DB} {pk : Nat}
    (h : insertObservation db ts m l = .ok (db', pk)) :
    (¬ ∃ r ∈ db.line_observation_table, r.timestamp = ts ∧ r.mode = m ∧ r.line = l) ∧
    db' = { db with
             line_observation_table :=
               db.line_observation_table ++ [⟨db.next_obs_id, ts, m, l⟩],
             next_obs_id := db.next_obs_id + 1 } ∧
    pk = db.next_obs_id := by
  unfold insertObservation at h
  split_ifs at h with hc
  simp only [Except.ok.injEq, Prod.mk.injEq] at h
  exact ⟨hc, h.1.symm, h.2.symm⟩

theorem insertObservation_error {db : DB} {ts : Nat} {m l : String} {e : DbError}
    (h : insertObservation db ts m l = .error e) :
    ∃ r ∈ db.line_observation_table, r.timestamp = ts ∧ r.mode = m ∧ r.line = l := by
  unfold insertObservation at h
  split_ifs at h with hc
  exact hc

/-! ### Branch equations for `add_mode_line` -/

theorem add_mode_line_cached {w : Writer} {m l : String} {ls : List String}
    (hlk : w.lines_cache.lookup m = some ls) (hmem : l ∈ ls) :
    add_mode_line w m l = (w, none) := by
  simp [add_mode_line, hlk, hmem]

theorem add_mode_line_cached_new {w : Writer} {m l : String} {ls : List String} {db1 : DB}
    (hlk : w.lines_cache.lookup m = some ls) (hmem : l ∉ ls)
    (hil : insertLine w.db m l = .ok db1) :
    add_mode_line w m l =
      ({ w with
          db := db1
          lines_cache := cacheSet w.lines_cache m (ls ++ [l])
          inserted_lines := w.inserted_lines ++ [(m, l)] }, none) := by
  simp [add_mode_line, hlk, hmem, hil]

theorem add_mode_line_cached_err {w : Writer} {m l : String} {ls : List String} {e : DbError}
    (hlk : w.lines_cache.lookup m = some ls) (hmem : l ∉ ls)
    (hil : insertLine w.db m l = .error e) :
    add_mode_line w m l = (w, some e) := by
  simp [add_mode_line, hlk, hmem, hil]

theorem add_mode_line_new {w : Writer} {m l : String} {db1 db2 : DB}
    (hlk : w.lines_cache.lookup m = none)
    (him : insertMode w.db m = .ok db1) (hil : insertLine db1 m l = .ok db2) :
    add_mode_line w m l =
      ({ db := db2,
         lines_cache := cacheSet w.lines_cache m [l],
         inserted_modes := w.inserted_modes ++ [m],
         inserted_lines := w.inserted_lines ++ [(m, l)] }, none) := by
  simp [add_mode_line, hlk, him, hil]

theorem add_mode_line_new_mode_err {w : Writer} {m l : String} {e : DbError}
    (hlk : w.lines_cache.lookup m = none)
    (him : insertMode w.db m = .error e) :
    add_mode_line w m l = (w, some e) := by
  simp [add_mode_line, hlk, him]

theorem add_mode_line_new_line_err {w : Writer} {m l : String} {db1 : DB} {e : DbError}
    (hlk : w.lines_cache.lookup m = none)
    (him : insertMode w.db m = .ok db1) (hil : insertLine db1 m l = .error e) :
    add_mode_line w m l =
      ({ w with db := db1, inserted_modes := w.inserted_modes ++ [m] }, some e) := by
  simp [add_mode_line, hlk, him, hil]

theorem lookup_cacheSet_self (c : List (String × List String)) (m : String)
    (ls : List String) : (cacheSet c m ls).lookup m = some ls := by
  simp [cacheSet, List.lookup]

theorem lookup_filter_ne (m' m : String) (h : m' ≠ m) :
    ∀ c : List (String × List String),
      (c.filter (fun p => p.1 ≠ m)).lookup m' = c.lookup m'
  | [] => rfl
  | (k, v) :: rest => by
    by_cases hk : k = m
    · have : ¬ (k ≠ m) := by simpa using hk
      simp only [List.filter_cons, decide_eq_true_eq]
      rw [if_neg this]
      have hmk : (m' == k) = false := by
        rw [hk]
        exact beq_false_of_ne h
      simp only [List.lookup, hmk]
      exact lookup_filter_ne m' m h rest
    · simp only [List.filter_cons, decide_eq_true_eq]
      rw [if_pos hk]
      by_cases hmk : m' = k
      · simp [List.lookup, hmk]
      · have hbk : (m' == k) = false := beq_false_of_ne hmk
        simp only [List.lookup, hbk]
        exact lookup_filter_ne m' m h rest

theorem lookup_cacheSet_ne (c : List (String × List String)) (m m' : String)
    (ls : List String) (h : m' ≠ m) :
    (cacheSet c m ls).lookup m' = c.lookup m' := by
  unfold cacheSet
  have hbk : (m' == m) = false := beq_false_of_ne h
  simp only [List.lookup, hbk]
  exact lookup_filter_ne m' m h c

/-- The operation `add_mode_line` touches only the mode/line tables, the cache and the
insert log: observation and status tables, the status vocabulary table and
the id counters are untouched, in every branch. -/
theorem add_mode_line_preserves (w : Writer) (m l : String) :
    (add_mode_line w m l).1.db.line_observation_table = w.db.line_observation_table ∧
    (add_mode_line w m l).1.db.line_status_table = w.db.line_status_table ∧
    (add_mode_line w m l).1.db.status_table = w.db.status_table ∧
    (add_mode_line w m l).1.db.next_obs_id = w.db.next_obs_id ∧
    (add_mode_line w m l).1.db.next_status_id = w.db.next_status_id := by
  cases hlk : w.lines_cache.lookup m with
  | none =>
    cases him : insertMode w.db m with
    | error e => rw [add_mode_line_new_mode_err hlk him]; exact ⟨rfl, rfl, rfl, rfl, rfl⟩
    | ok db1 =>
      obtain ⟨_, hdb1⟩ := insertMode_ok him
      cases hil : insertLine db1 m l with
      | error e =>
        rw [add_mode_line_new_line_err hlk him hil, hdb1]
        exact ⟨rfl, rfl, rfl, rfl, rfl⟩
      | ok db2 =>
        obtain ⟨_, hdb2⟩ := insertLine_ok hil
        rw [add_mode_line_new hlk him hil, hdb2, hdb1]
        exact ⟨rfl, rfl, rfl, rfl, rfl⟩
  | some ls =>
    by_cases hmem : l ∈ ls
    · rw [add_mode_line_cached hlk hmem]; exact ⟨rfl, rfl, rfl, rfl, rfl⟩
    · cases hil : insertLine w.db m l with
      | error e => rw [add_mode_line_cached_err hlk hmem hil]; exact ⟨rfl, rfl, rfl, rfl, rfl⟩
      | ok db1 =>
        obtain ⟨_, hdb1⟩ := insertLine_ok hil
        rw [add_mode_line_cached_new hlk hmem hil, hdb1]
        exact ⟨rfl, rfl, rfl, rfl, rfl⟩

/-- After a successful `add_mode_line`, the cache contains the line under the
mode. -/
theorem add_mode_line_ok_cache {w : Writer} {m l : String}
    (h : (add_mode_line w m l).2 = none) :
    ∃ ls, (add_mode_line w m l).1.lines_cache.lookup m = some ls ∧ l ∈ ls := by
  cases hlk : w.lines_cache.lookup m with
  | none =>
    cases him : insertMode w.db m with
    | error e => rw [add_mode_line_new_mode_err hlk him] at h; simp at h
    | ok db1 =>
      cases hil : insertLine db1 m l with
      | error e => rw [add_mode_line_new_line_err hlk him hil] at h; simp at h
      | ok db2 =>
        rw [add_mode_line_new hlk him hil]
        exact ⟨[l], lookup_cacheSet_self _ _ _, by simp⟩
  | some ls =>
    by_cases hmem : l ∈ ls
    · rw [add_mode_line_cached hlk hmem]
      exact ⟨ls, hlk, hmem⟩
    · cases hil : insertLine w.db m l with
      | error e => rw [add_mode_line_cached_err hlk hmem hil] at h; simp at h
      | ok db1 =>
        rw [add_mode_line_cached_new hlk hmem hil]
        exact ⟨ls ++ [l], lookup_cacheSet_self _ _ _, by simp⟩

/-- The status rows written by the `lineStatuses` loop, with consecutive
autoincrement ids starting at `n`. -/
def statusRowsFrom (n pk : Nat) : List StatusJson → List StatusRow
  | [] => []
  | s :: rest => statusRowOf pk s n :: statusRowsFrom (n + 1) pk rest

theorem add_line_statuses_eq : ∀ (ss : List StatusJson) (w : Writer) (pk : Nat),
    (add_line_statuses w pk ss).1 =
      { w with db := { w.db with
          line_status_table :=
            w.db.line_status_table ++ statusRowsFrom w.db.next_status_id pk ss,
          next_status_id := w.db.next_status_id + ss.length } }
  | [], w, pk => by simp [add_line_statuses, statusRowsFrom]
  | s :: rest, w, pk => by
    have ih := add_line_statuses_eq rest (add_line_status w pk s) pk
    show (add_line_statuses (add_line_status w pk s) pk rest).1 = _
    rw [ih]
    simp only [add_line_status, insertStatusRow, statusRowsFrom, List.append_assoc,
      List.singleton_append, List.length_cons, Nat.add_assoc]
    rw [Nat.add_comm 1 rest.length]

/-! ### Branch equations for `add_line_observation` -/

theorem add_line_observation_ml_err {w : Writer} {ts : Nat} {l : LineJson} {e : DbError}
    (h : (add_mode_line w l.modeName l.name).2 = some e) :
    add_line_observation w ts l = ((add_mode_line w l.modeName l.name).1, some e, 0) := by
  simp [add_line_observation, h]

theorem add_line_observation_obs_err {w : Writer} {ts : Nat} {l : LineJson} {e : DbError}
    (h1 : (add_mode_line w l.modeName l.name).2 = none)
    (h2 : insertObservation (add_mode_line w l.modeName l.name).1.db ts
            l.modeName l.name = .error e) :
    add_line_observation w ts l = ((add_mode_line w l.modeName l.name).1, some e, 0) := by
  simp [add_line_observation, h1, h2]

theorem add_line_observation_ok_eq {w : Writer} {ts : Nat} {l : LineJson} {db2 : DB} {pk : Nat}
    (h1 : (add_mode_line w l.modeName l.name).2 = none)
    (h2 : insertObservation (add_mode_line w l.modeName l.name).1.db ts
            l.modeName l.name = .ok (db2, pk)) :
    add_line_observation w ts l =
      ((add_line_statuses { (add_mode_line w l.modeName l.name).1 with db := db2 }
          pk l.lineStatuses).1,
       none,
       (add_line_statuses { (add_mode_line w l.modeName l.name).1 with db := db2 }
          pk l.lineStatuses).2) := by
  simp [add_line_observation, h1, h2]

theorem statusRowsFrom_mem : ∀ (ss : List StatusJson) (n pk : Nat) (s : StatusJson),
    s ∈ ss → ∃ row ∈ statusRowsFrom n pk ss,
      row.description = s.statusSeverityDescription ∧ row.parent = pk
  | [], _, _, _, h => absurd h (by simp)
  | s0 :: rest, n, pk, s, h => by
    rcases List.mem_cons.mp h with he | hm
    · exact ⟨statusRowOf pk s0 n, by simp [statusRowsFrom], by simp [he, statusRowOf]⟩
    · obtain ⟨row, hr1, hr2⟩ := statusRowsFrom_mem rest (n + 1) pk s hm
      exact ⟨row, by simp [statusRowsFrom, hr1], hr2⟩

/-! ## Theorems about duplicate ingestion (C4, C5) -/

/-- The number of observation rows carrying a given (timestamp, mode, line)
triple. -/
def countTriple (db : DB) (ts : Nat) (m l : String) : Nat :=
  (db.line_observation_table.filter
    (fun r => decide (r.timestamp = ts ∧ r.mode = m ∧ r.line = l))).length

/-- C4 (amended): after a successful ingestion of (timestamp, mode, line),
the observation table holds exactly one row for that triple; re-ingesting the
same triple is rejected at the observation uniqueness constraint (the writer
state is returned unchanged together with the conflict error), and the raised
conflict ABORTS the surrounding batch: `add_from_dict` stops at the duplicate
and does not process the remaining records. -/
theorem C4_amended_duplicate_rejected_aborts (w : Writer) (ts : Nat) (l : LineJson)
    (w1 : Writer) (c : Nat) (post : List LineJson)
    (h1 : add_line_observation w ts l = (w1, none, c)) :
    countTriple w1.db ts l.modeName l.name = 1 ∧
    add_line_observation w1 ts l = (w1, some DbError.uniqueViolation, 0) ∧
    add_from_dict w1 ts (l :: post) = (w1, some DbError.uniqueViolation, 0) := by
  cases hml : (add_mode_line w l.modeName l.name).2 with
  | some e =>
    rw [add_line_observation_ml_err hml] at h1
    exact absurd h1 (by simp)
  | none =>
    cases hio : insertObservation (add_mode_line w l.modeName l.name).1.db ts
        l.modeName l.name with
    | error e =>
      rw [add_line_observation_obs_err hml hio] at h1
      exact absurd h1 (by simp)
    | ok p =>
      obtain ⟨db2, pk⟩ := p
      rw [add_line_observation_ok_eq hml hio] at h1
      have hw1 : w1 = (add_line_statuses
          { (add_mode_line w l.modeName l.name).1 with db := db2 } pk l.lineStatuses).1 :=
        (congrArg (fun t => t.1) h1).symm
      obtain ⟨hnoex, hdb2, hpk⟩ := insertObservation_ok hio
      have hpres := add_mode_line_preserves w l.modeName l.name
      have hstat := add_line_statuses_eq l.lineStatuses
        { (add_mode_line w l.modeName l.name).1 with db := db2 } pk
      have hobs1 : w1.db.line_observation_table
          = (add_mode_line w l.modeName l.name).1.db.line_observation_table
            ++ [⟨(add_mode_line w l.modeName l.name).1.db.next_obs_id, ts,
                 l.modeName, l.name⟩] := by
        rw [hw1, hstat, hdb2]
      have hcache1 : w1.lines_cache = (add_mode_line w l.modeName l.name).1.lines_cache := by
        rw [hw1, hstat]
      -- exactly one row for the triple
      have hc1 : countTriple w1.db ts l.modeName l.name = 1 := by
        unfold countTriple
        rw [hobs1, List.filter_append]
        have hzero : (add_mode_line w l.modeName l.name).1.db.line_observation_table.filter
            (fun r => decide (r.timestamp = ts ∧ r.mode = l.modeName ∧ r.line = l.name))
              = [] := by
          rw [List.filter_eq_nil_iff]
          intro r hr
          simp only [decide_eq_true_eq]
          intro hcontra
          exact hnoex ⟨r, hr, hcontra⟩
        rw [hzero]
        simp
      -- the second attempt is rejected with the state unchanged
      obtain ⟨ls, hls, hlmem⟩ := add_mode_line_ok_cache hml
      have hlk1 : w1.lines_cache.lookup l.modeName = some ls := by
        rw [hcache1]; exact hls
      have hml2 : add_mode_line w1 l.modeName l.name = (w1, none) :=
        add_mode_line_cached hlk1 hlmem
      have hio2 : insertObservation w1.db ts l.modeName l.name
          = .error .uniqueViolation := by
        unfold insertObservation
        rw [if_pos]
        exact ⟨⟨(add_mode_line w l.modeName l.name).1.db.next_obs_id, ts,
                 l.modeName, l.name⟩,
               by rw [hobs1]; exact List.mem_append_right _ (by simp),
               by simp⟩
      have hsecond : add_line_observation w1 ts l = (w1, some DbError.uniqueViolation, 0) := by
        have := @add_line_observation_obs_err w1 ts l DbError.uniqueViolation
          (by rw [hml2]) (by rw [hml2]; exact hio2)
        rw [this, hml2]
      refine ⟨hc1, hsecond, ?_⟩
      simp [add_from_dict, hsecond]

/-- Concrete line objects for the counterexample. -/
def lineA : LineJson :=
  { modeName := "tube", name := "victoria",
    lineStatuses := [{ statusSeverityDescription := "Good Service", statusSeverity := 10,
                       reason := none, disruption := none }] }

def lineB : LineJson :=
  { modeName := "tube", name := "northern",
    lineStatuses := [{ statusSeverityDescription := "Good Service", statusSeverity := 10,
                       reason := none, disruption := none }] }

/-- The batch that ingests lineA twice (identical content) followed by lineB. -/
def exC4run : Writer × Option DbError × Nat :=
  add_from_dict (freshWriter emptyDB) 100 [lineA, lineA, lineB]

/-- C4 counterexample: ingesting the same (timestamp, mode, line) triple
twice inside one batch leaves exactly one observation row for the triple and
raises the uniqueness conflict, but the batch ABORTS: the remaining record
(lineB, a different line) is never processed — no observation row for it
exists — contradicting the claim that the error does not abort the overall
ingestion batch. -/
theorem C4_counterexample :
    exC4run.2.1 = some DbError.uniqueViolation ∧
    countTriple exC4run.1.db 100 "tube" "victoria" = 1 ∧
    exC4run.1.db.line_observation_table.filter (fun o => decide (o.line = "northern")) = [] := by
  refine ⟨by decide, by decide, by decide⟩

theorem C4_amended_duplicate_rejected_aborts_witness :
    countTriple (add_line_observation (freshWriter emptyDB) 100 lineA).1.db
        100 "tube" "victoria" = 1 ∧
    add_from_dict (add_line_observation (freshWriter emptyDB) 100 lineA).1 100 [lineA, lineB]
      = ((add_line_observation (freshWriter emptyDB) 100 lineA).1,
         some DbError.uniqueViolation, 0) := by
  have h := C4_amended_duplicate_rejected_aborts (freshWriter emptyDB) 100 lineA
    (add_line_observation (freshWriter emptyDB) 100 lineA).1
    (add_line_observation (freshWriter emptyDB) 100 lineA).2.2 [lineB] (by decide)
  exact ⟨h.1, h.2.2⟩

/-- A writer whose cache holds ("tube", ["victoria"]) and whose database
holds the corresponding mode and line rows. -/
def cachedW : Writer := (add_mode_line (freshWriter emptyDB) "tube" "victoria").1

/-- A database already containing the mode "tube" (with its line "victoria"),
as left behind by an earlier writer instance. -/
def exDB5 : DB := cachedW.db

/-- C5 counterexample: the valid pair ("tube", "northern") — its mode already
present in the database from an earlier run — inserted twice across two
writer instances each starting with an empty cache: BOTH calls raise at the
mode primary key (the uncached mode is re-inserted by `add_mode_line` before
the line insert is reached), and the line table afterwards contains ZERO rows
for the pair, not the exactly one row the claim promises. -/
theorem C5_counterexample :
    (add_mode_line (freshWriter exDB5) "tube" "northern").2
        = some DbError.uniqueViolation ∧
    (add_mode_line (freshWriter
        ((add_mode_line (freshWriter exDB5) "tube" "northern").1.db)) "tube" "northern").2
        = some DbError.uniqueViolation ∧
    ((add_mode_line (freshWriter
        ((add_mode_line (freshWriter exDB5) "tube" "northern").1.db))
        "tube" "northern").1.db.line_table.count ("tube", "northern") = 0) := by
  refine ⟨by decide, by decide, by decide⟩

/-- C5 (amended): inserting a valid (mode, line) pair twice via
`add_mode_line` leaves exactly one row for the pair in the line table and
exactly one row for the mode in the mode table WITHIN one writer instance, in
both cache regimes: (i) pair entirely new — empty-cache path: mode and line
rows are written once, the repeat call is a cache no-op, and a later
fresh-cache instance re-inserting the same pair is rejected at the mode
primary key with the database unchanged (still one row each); (ii) mode
already cached with other lines — the elif path: only the line row is
written, the repeat call is a cache no-op.  Across instances the insertion is
NOT insert-if-absent: (iii) a fresh-cache writer over a database already
containing the mode raises at the mode primary key before the line insert,
returning the writer unchanged — so a new line for an existing mode cannot be
inserted by a fresh instance at all. -/
theorem C5_amended_add_mode_line (w : Writer) (mode line : String) (ls : List String) :
    (w.lines_cache.lookup mode = none → mode ∉ w.db.mode_table →
      (mode, line) ∉ w.db.line_table →
      ((add_mode_line w mode line).2 = none) ∧
      ((add_mode_line w mode line).1.db.mode_table.count mode = 1) ∧
      ((add_mode_line w mode line).1.db.line_table.count (mode, line) = 1) ∧
      (add_mode_line (add_mode_line w mode line).1 mode line
        = ((add_mode_line w mode line).1, none)) ∧
      ((add_mode_line (freshWriter (add_mode_line w mode line).1.db) mode line).2
        = some DbError.uniqueViolation) ∧
      ((add_mode_line (freshWriter (add_mode_line w mode line).1.db) mode line).1.db
        = (add_mode_line w mode line).1.db)) ∧
    (w.lines_cache.lookup mode = some ls → line ∉ ls →
      (mode, line) ∉ w.db.line_table → w.db.mode_table.count mode = 1 →
      ((add_mode_line w mode line).2 = none) ∧
      ((add_mode_line w mode line).1.db.mode_table.count mode = 1) ∧
      ((add_mode_line w mode line).1.db.line_table.count (mode, line) = 1) ∧
      (add_mode_line (add_mode_line w mode line).1 mode line
        = ((add_mode_line w mode line).1, none))) ∧
    (w.lines_cache.lookup mode = none → mode ∈ w.db.mode_table →
      add_mode_line w mode line = (w, some DbError.uniqueViolation)) := by
  refine ⟨?_, ?_, ?_⟩
  · intro hc hm hl
    have him : insertMode w.db mode
        = .ok { w.db with mode_table := w.db.mode_table ++ [mode] } := by
      unfold insertMode
      rw [if_neg hm]
    have hil : insertLine { w.db with mode_table := w.db.mode_table ++ [mode] } mode line
        = .ok { w.db with
                 mode_table := w.db.mode_table ++ [mode],
                 line_table := w.db.line_table ++ [(mode, line)] } := by
      unfold insertLine
      rw [if_neg hl]
    have h1 := add_mode_line_new hc him hil
    have hcount_m : (w.db.mode_table ++ [mode]).count mode = 1 := by
      rw [List.count_append, List.count_eq_zero.mpr hm]
      simp
    have hcount_l : (w.db.line_table ++ [(mode, line)]).count (mode, line) = 1 := by
      rw [List.count_append, List.count_eq_zero.mpr hl]
      simp
    have hmem2 : mode ∈ (freshWriter (add_mode_line w mode line).1.db).db.mode_table := by
      rw [h1]
      simp [freshWriter]
    have hfresh : add_mode_line (freshWriter (add_mode_line w mode line).1.db) mode line
        = (freshWriter (add_mode_line w mode line).1.db, some DbError.uniqueViolation) := by
      apply add_mode_line_new_mode_err
      · rfl
      · unfold insertMode
        rw [if_pos hmem2]
    refine ⟨by rw [h1], ?_, ?_, ?_, ?_, ?_⟩
    · rw [h1]
      exact hcount_m
    · rw [h1]
      exact hcount_l
    · rw [h1]
      exact add_mode_line_cached (lookup_cacheSet_self _ _ _) (by simp)
    · rw [hfresh]
    · rw [hfresh]
      rfl
  · intro hlk hmem hl hcnt
    have hil : insertLine w.db mode line
        = .ok { w.db with line_table := w.db.line_table ++ [(mode, line)] } := by
      unfold insertLine
      rw [if_neg hl]
    have h1 := add_mode_line_cached_new hlk hmem hil
    have hcount_l : (w.db.line_table ++ [(mode, line)]).count (mode, line) = 1 := by
      rw [List.count_append, List.count_eq_zero.mpr hl]
      simp
    refine ⟨by rw [h1], ?_, ?_, ?_⟩
    · rw [h1]
      exact hcnt
    · rw [h1]
      exact hcount_l
    · rw [h1]
      exact add_mode_line_cached (lookup_cacheSet_self _ _ _) (by simp)
  · intro hlk hmem
    have him : insertMode w.db mode = .error DbError.uniqueViolation := by
      unfold insertMode
      rw [if_pos hmem]
    exact add_mode_line_new_mode_err hlk him

theorem C5_amended_add_mode_line_witness :
    ((add_mode_line (freshWriter emptyDB) "tube" "victoria").1.db.line_table.count
        ("tube", "victoria") = 1) ∧
    ((add_mode_line cachedW "tube" "northern").1.db.mode_table.count "tube" = 1) ∧
    ((add_mode_line cachedW "tube" "northern").1.db.line_table.count
        ("tube", "northern") = 1) ∧
    (add_mode_line (add_mode_line cachedW "tube" "northern").1 "tube" "northern"
      = ((add_mode_line cachedW "tube" "northern").1, none)) ∧
    (add_mode_line (freshWriter exDB5) "tube" "northern"
      = (freshWriter exDB5, some DbError.uniqueViolation)) := by
  have t1 := (C5_amended_add_mode_line (freshWriter emptyDB) "tube" "victoria" []).1
    rfl (by decide) (by decide)
  have t2 := (C5_amended_add_mode_line cachedW "tube" "northern" ["victoria"]).2.1
    (by decide) (by decide) (by decide) (by decide)
  have t3 := (C5_amended_add_mode_line (freshWriter exDB5) "tube" "northern" []).2.2
    rfl (by decide)
  exact ⟨t1.2.2.1, t2.2.1, t2.2.2.1, t2.2.2.2, t3⟩

/-! ## Theorems about unseen status descriptions (C8) -/

/-- The property declared by the `line_status.description` foreign key: every
status row's description appears in the `status` vocabulary table.  SQLite
never enforces it here, and the writer never populates `status`. -/
def statusDescFKHolds (db : DB) : Prop :=
  ∀ row ∈ db.line_status_table, row.description ∈ db.status_table

/-- C8: ingesting a snapshot line carrying a status whose description is
outside the known vocabulary (and not previously recorded anywhere) succeeds:
no error is raised, the status row is written with the unseen description,
and the `status` table — the never-populated target of the declared foreign
key — is untouched, so the declared foreign-key property is violated rather
than enforced. -/
theorem C8_unseen_status_tolerated (w : Writer) (ts : Nat) (l : LineJson) (s : StatusJson)
    (hs : s ∈ l.lineStatuses)
    (hv : s.statusSeverityDescription ∉ STATUSES)
    (hu : s.statusSeverityDescription ∉ w.db.status_table)
    (hc : w.lines_cache.lookup l.modeName = none)
    (hm : l.modeName ∉ w.db.mode_table)
    (hl : (l.modeName, l.name) ∉ w.db.line_table)
    (hobs : ¬ ∃ r ∈ w.db.line_observation_table,
        r.timestamp = ts ∧ r.mode = l.modeName ∧ r.line = l.name) :
    ((add_line_observation w ts l).2.1 = none) ∧
    (∃ row ∈ (add_line_observation w ts l).1.db.line_status_table,
        row.description = s.statusSeverityDescription) ∧
    ((add_line_observation w ts l).1.db.status_table = w.db.status_table) ∧
    ¬ statusDescFKHolds (add_line_observation w ts l).1.db := by
  have him : insertMode w.db l.modeName
      = .ok { w.db with mode_table := w.db.mode_table ++ [l.modeName] } := by
    unfold insertMode
    rw [if_neg hm]
  have hil : insertLine { w.db with mode_table := w.db.mode_table ++ [l.modeName] }
      l.modeName l.name
      = .ok { w.db with
               mode_table := w.db.mode_table ++ [l.modeName],
               line_table := w.db.line_table ++ [(l.modeName, l.name)] } := by
    unfold insertLine
    rw [if_neg hl]
  have h1 := add_mode_line_new hc him hil
  cases hml : (add_mode_line w l.modeName l.name).2 with
  | some e =>
    rw [h1] at hml
    exact absurd hml (by simp)
  | none =>
    cases hio : insertObservation (add_mode_line w l.modeName l.name).1.db ts
        l.modeName l.name with
    | error e =>
      have hex := insertObservation_error hio
      rw [h1] at hex
      exact absurd hex hobs
    | ok p =>
      obtain ⟨db2, pk⟩ := p
      have heq := add_line_observation_ok_eq hml hio
      obtain ⟨hnoex, hdb2, hpk⟩ := insertObservation_ok hio
      have hstat := add_line_statuses_eq l.lineStatuses
        { (add_mode_line w l.modeName l.name).1 with db := db2 } pk
      have hrow : ∃ row ∈ (add_line_observation w ts l).1.db.line_status_table,
          row.description = s.statusSeverityDescription := by
        rw [heq, hstat]
        obtain ⟨row, hr1, hr2, _⟩ := statusRowsFrom_mem l.lineStatuses
          db2.next_status_id pk s hs
        exact ⟨row, List.mem_append_right _ hr1, hr2⟩
      have hst : (add_line_observation w ts l).1.db.status_table = w.db.status_table := by
        rw [heq, hstat, hdb2]
        exact (add_mode_line_preserves w l.modeName l.name).2.2.1
      refine ⟨by rw [heq], hrow, hst, ?_⟩
      intro hfk
      obtain ⟨row, hrm, hrd⟩ := hrow
      have hmem := hfk row hrm
      rw [hst, hrd] at hmem
      exact hu hmem

/-- A line carrying a status outside the known vocabulary. -/
def alienLine : LineJson :=
  { modeName := "tube", name := "victoria",
    lineStatuses := [{ statusSeverityDescription := "Zombie Outbreak", statusSeverity := 1,
                       reason := none, disruption := none }] }

theorem C8_unseen_status_tolerated_witness :
    ((add_line_observation (freshWriter emptyDB) 100 alienLine).2.1 = none) ∧
    ¬ statusDescFKHolds (add_line_observation (freshWriter emptyDB) 100 alienLine).1.db := by
  have h := C8_unseen_status_tolerated (freshWriter emptyDB) 100 alienLine
    { statusSeverityDescription := "Zombie Outbreak", statusSeverity := 1,
      reason := none, disruption := none }
    (by decide) (by decide) (by decide) rfl (by decide) (by decide) (by decide)
  exact ⟨h.1, h.2.2.2⟩

/-! ## The writer cache invariant (C10) -/

/-- The invariant of a `DatabaseWriter` instance: every mode key of the cache
names a mode row this instance has already inserted (and which is therefore
in the database), and every line cached under it names a line row this
instance has already inserted (and which is in the database). -/
def WInv (w : Writer) : Prop :=
  ∀ m ls, w.lines_cache.lookup m = some ls →
    (m ∈ w.inserted_modes ∧ m ∈ w.db.mode_table ∧
     ∀ l ∈ ls, ((m, l) ∈ w.inserted_lines ∧ (m, l) ∈ w.db.line_table))

theorem WInv_fresh (db : DB) : WInv (freshWriter db) := by
  intro m ls h
  simp [freshWriter, List.lookup] at h

theorem WInv_add_mode_line {w : Writer} (hw : WInv w) (m l : String) :
    WInv (add_mode_line w m l).1 := by
  cases hlk : w.lines_cache.lookup m with
  | none =>
    cases him : insertMode w.db m with
    | error e =>
      rw [add_mode_line_new_mode_err hlk him]
      exact hw
    | ok db1 =>
      obtain ⟨hm1, hdb1⟩ := insertMode_ok him
      cases hil : insertLine db1 m l with
      | error e =>
        rw [add_mode_line_new_line_err hlk him hil]
        intro m' ls' hl'
        obtain ⟨h1, h2, h3⟩ := hw m' ls' hl'
        subst hdb1
        exact ⟨List.mem_append_left _ h1, List.mem_append_left _ h2, h3⟩
      | ok db2 =>
        obtain ⟨hl1, hdb2⟩ := insertLine_ok hil
        rw [add_mode_line_new hlk him hil]
        intro m' ls' hl'
        subst hdb2
        subst hdb1
        by_cases hmm : m' = m
        · subst hmm
          rw [lookup_cacheSet_self] at hl'
          injection hl' with hls
          subst hls
          refine ⟨List.mem_append_right _ (by simp),
                  List.mem_append_right _ (by simp), ?_⟩
          intro l' hl2
          simp only [List.mem_singleton] at hl2
          subst hl2
          exact ⟨List.mem_append_right _ (by simp), List.mem_append_right _ (by simp)⟩
        · rw [lookup_cacheSet_ne _ _ _ _ hmm] at hl'
          obtain ⟨h1, h2, h3⟩ := hw m' ls' hl'
          exact ⟨List.mem_append_left _ h1, List.mem_append_left _ h2,
                 fun l' hl2 => ⟨List.mem_append_left _ (h3 l' hl2).1,
                                List.mem_append_left _ (h3 l' hl2).2⟩⟩
  | some ls =>
    by_cases hmem : l ∈ ls
    · rw [add_mode_line_cached hlk hmem]
      exact hw
    · cases hil : insertLine w.db m l with
      | error e =>
        rw [add_mode_line_cached_err hlk hmem hil]
        exact hw
      | ok db1 =>
        obtain ⟨hl1, hdb1⟩ := insertLine_ok hil
        rw [add_mode_line_cached_new hlk hmem hil]
        intro m' ls' hl'
        subst hdb1
        by_cases hmm : m' = m
        · subst hmm
          rw [lookup_cacheSet_self] at hl'
          injection hl' with hls
          obtain ⟨h1, h2, h3⟩ := hw _ ls hlk
          subst hls
          refine ⟨h1, h2, ?_⟩
          intro l' hl2
          rcases List.mem_append.mp hl2 with h | h
          · exact ⟨List.mem_append_left _ (h3 l' h).1, List.mem_append_left _ (h3 l' h).2⟩
          · simp only [List.mem_singleton] at h
            subst h
            exact ⟨List.mem_append_right _ (by simp), List.mem_append_right _ (by simp)⟩
        · rw [lookup_cacheSet_ne _ _ _ _ hmm] at hl'
          obtain ⟨h1, h2, h3⟩ := hw m' ls' hl'
          exact ⟨h1, h2,
                 fun l' hl2 => ⟨List.mem_append_left _ (h3 l' hl2).1,
                                List.mem_append_left _ (h3 l' hl2).2⟩⟩

theorem WInv_add_line_status {w : Writer} (hw : WInv w) (pk : Nat) (s : StatusJson) :
    WInv (add_line_status w pk s) := by
  intro m ls h
  exact hw m ls h

theorem WInv_add_line_statuses : ∀ (ss : List StatusJson) (w : Writer),
    WInv w → ∀ pk : Nat, WInv (add_line_statuses w pk ss).1
  | [], _, hw, _ => hw
  | s :: rest, w, hw, pk =>
    WInv_add_line_statuses rest (add_line_status w pk s)
      (WInv_add_line_status hw pk s) pk

theorem WInv_add_line_observation {w : Writer} (hw : WInv w) (ts : Nat) (l : LineJson) :
    WInv (add_line_observation w ts l).1 := by
  cases hml : (add_mode_line w l.modeName l.name).2 with
  | some e =>
    rw [add_line_observation_ml_err hml]
    exact WInv_add_mode_line hw l.modeName l.name
  | none =>
    cases hio : insertObservation (add_mode_line w l.modeName l.name).1.db ts
        l.modeName l.name with
    | error e =>
      rw [add_line_observation_obs_err hml hio]
      exact WInv_add_mode_line hw l.modeName l.name
    | ok p =>
      obtain ⟨db2, pk⟩ := p
      rw [add_line_observation_ok_eq hml hio]
      apply WInv_add_line_statuses
      obtain ⟨hno, hdb2, hpk⟩ := insertObservation_ok hio
      intro m ls h
      obtain ⟨h1, h2, h3⟩ := WInv_add_mode_line hw l.modeName l.name m ls h
      subst hdb2
      exact ⟨h1, h2, h3⟩

theorem WInv_add_from_dict : ∀ (data : List LineJson) (w : Writer),
    WInv w → ∀ ts : Nat, WInv (add_from_dict w ts data).1
  | [], _, hw, _ => hw
  | l :: rest, w, hw, ts => by
    have h1 := WInv_add_line_observation hw ts l
    cases hres : add_line_observation w ts l with
    | mk w1 p =>
      obtain ⟨oe, c⟩ := p
      rw [hres] at h1
      cases oe with
      | some e =>
        have heq : add_from_dict w ts (l :: rest) = (w1, some e, c) := by
          simp [add_from_dict, hres]
        rw [heq]
        exact h1
      | none =>
        have heq : add_from_dict w ts (l :: rest)
            = ((add_from_dict w1 ts rest).1, (add_from_dict w1 ts rest).2.1,
               c + (add_from_dict w1 ts rest).2.2) := by
          simp [add_from_dict, hres]
        rw [heq]
        exact WInv_add_from_dict rest w1 h1 ts

theorem WInv_add_pairs : ∀ (ps : List (Nat × Option Payload)) (w : Writer),
    WInv w → WInv (add_pairs w ps).1
  | [], _, hw => hw
  | (ts, none) :: rest, w, hw => WInv_add_pairs rest w hw
  | (ts, some d) :: rest, w, hw => by
    have h1 := WInv_add_from_dict d w hw ts
    cases hres : add_from_dict w ts d with
    | mk w1 p =>
      obtain ⟨oe, c⟩ := p
      rw [hres] at h1
      cases oe with
      | some e =>
        have heq : add_pairs w ((ts, some d) :: rest) = (w1, some e, c) := by
          simp [add_pairs, hres]
        rw [heq]
        exact h1
      | none =>
        have heq : add_pairs w ((ts, some d) :: rest)
            = ((add_pairs w1 rest).1, (add_pairs w1 rest).2.1,
               c + (add_pairs w1 rest).2.2) := by
          simp [add_pairs, hres]
        rw [heq]
        exact WInv_add_pairs rest w1 h1

/-- C10: the writer-cache invariant — for every mode `m` and line `l` with
`l` cached under `m`, this instance has already inserted the mode row `m` and
the line row `(m, l)` into the database — holds of a fresh instance (empty
cache) and is preserved by `add_mode_line`, `add_line_status`,
`add_line_observation`, `add_from_dict` and `add_from_data`; moreover
`add_mode_line` never issues another insert for a pair already in the cache
(it returns the writer unchanged with no error). -/
theorem C10_cache_invariant (db : DB) (w : Writer) (m l : String)
    (ls : List String) (pk : Nat) (s : StatusJson) (ts : Nat) (lj : LineJson)
    (data : List LineJson) (root : CategoryDir) :
    WInv (freshWriter db) ∧
    (WInv w → WInv (add_mode_line w m l).1) ∧
    (WInv w → WInv (add_line_status w pk s)) ∧
    (WInv w → WInv (add_line_observation w ts lj).1) ∧
    (WInv w → WInv (add_from_dict w ts data).1) ∧
    (WInv w → WInv (add_from_data w root).1) ∧
    (w.lines_cache.lookup m = some ls → l ∈ ls → add_mode_line w m l = (w, none)) :=
  ⟨WInv_fresh db,
   fun hw => WInv_add_mode_line hw m l,
   fun hw => WInv_add_line_status hw pk s,
   fun hw => WInv_add_line_observation hw ts lj,
   fun hw => WInv_add_from_dict data w hw ts,
   fun hw => WInv_add_pairs (walk_category root).1 w hw,
   fun h1 h2 => add_mode_line_cached h1 h2⟩

theorem C10_cache_invariant_witness :
    WInv (freshWriter emptyDB) ∧
    WInv (add_mode_line (freshWriter emptyDB) "tube" "victoria").1 ∧
    add_mode_line cachedW "tube" "victoria" = (cachedW, none) := by
  have t1 := C10_cache_invariant emptyDB (freshWriter emptyDB) "tube" "victoria"
    ["victoria"] 0 ⟨"Good Service", 10, none, none⟩ 100 lineA [] []
  have t2 := C10_cache_invariant emptyDB cachedW "tube" "victoria"
    ["victoria"] 0 ⟨"Good Service", 10, none, none⟩ 100 lineA [] []
  exact ⟨t1.1, t1.2.1 t1.1, t2.2.2.2.2.2.2 (by decide) (by decide)⟩

/-! ## Ordering of the traversal (C7) -/

theorem lexLe_append_same : ∀ (p u v : Name), lexLe (p ++ u) (p ++ v) = lexLe u v
  | [], _, _ => rfl
  | c :: p, u, v => by
    show (if c.toNat < c.toNat then true
          else if c.toNat < c.toNat then false
          else lexLe (p ++ u) (p ++ v)) = lexLe u v
    rw [if_neg (Nat.lt_irrefl _), if_neg (Nat.lt_irrefl _)]
    exact lexLe_append_same p u v

theorem digitsVal_pair (a b : Char) :
    digitsVal [a, b] = (a.toNat - 48) * 10 + (b.toNat - 48) := by
  have h0 : digitsVal ([] : Name) = 0 := rfl
  rw [digitsVal_cons, digitsVal_cons, h0]
  simp

theorem listdir_sorted {α : Type} (entries : List (Name × α)) :
    (listdir entries).Pairwise (fun a b => lexLe a.1 b.1 = true) :=
  List.sorted_insertionSort _ _

theorem listdir_perm {α : Type} (entries : List (Name × α)) :
    List.Perm (listdir entries) entries :=
  List.perm_insertionSort _ _

theorem listdir_mem {α : Type} {x : Name × α} {entries : List (Name × α)} :
    x ∈ listdir entries ↔ x ∈ entries :=
  (listdir_perm entries).mem_iff

theorem listdir_names_nodup {α : Type} {entries : List (Name × α)}
    (h : (entries.map (fun x => x.1)).Nodup) :
    ((listdir entries).map (fun x => x.1)).Nodup :=
  (((listdir_perm entries).map (fun x => x.1)).nodup_iff).mpr h

theorem pairwise_flatMap_of {α β : Type} (R : β → β → Prop) (f : α → List β) :
    ∀ l : List α, (∀ x ∈ l, (f x).Pairwise R) →
      l.Pairwise (fun x y => ∀ u ∈ f x, ∀ v ∈ f y, R u v) →
      (l.flatMap f).Pairwise R
  | [], _, _ => by simp
  | x :: rest, h1, h2 => by
    simp only [List.flatMap_cons]
    rw [List.pairwise_append]
    refine ⟨h1 x (List.mem_cons_self ..),
            pairwise_flatMap_of R f rest
              (fun y hy => h1 y (List.mem_cons_of_mem _ hy)) h2.of_cons, ?_⟩
    intro u hu v hv
    rw [List.mem_flatMap] at hv
    obtain ⟨y, hy, hvy⟩ := hv
    exact (List.rel_of_pairwise_cons h2 hy) u hu v hvy

/-- Well-formed directory names at one level: pairwise distinct, all decimal
digits, all of the given fixed (zero-padded) width. -/
def WFnames (ns : List Name) (width : Nat) : Prop :=
  ns.Nodup ∧ ∀ n ∈ ns, n.length = width ∧ ∀ c ∈ n, isDigitC c

instance (ns : List Name) (width : Nat) : Decidable (WFnames ns width) := by
  unfold WFnames
  infer_instance

/-- Well-formed file names of one day directory: all share the same 11-char
date stem and the same separator at position 13, with decimal digits encoding
the hour at positions 11-12 and the minute at positions 14-15. -/
def WFfileNames (ns : List Name) : Prop :=
  ∃ p sep, p.length = 11 ∧
    ∀ n ∈ ns, ∃ c1 c2 c3 c4 r, n = p ++ c1 :: c2 :: sep :: c3 :: c4 :: r ∧
      isDigitC c1 ∧ isDigitC c2 ∧ isDigitC c3 ∧ isDigitC c4

/-- A well-formed data root: zero-padded numeric directory names at the
year (some common width), month and day (width 2) levels, distinct names
within each directory, and well-formed file names within each day. -/
def WellFormedRoot (root : CategoryDir) : Prop :=
  (∃ wy, WFnames (root.map (fun x => x.1)) wy) ∧
  ∀ yd ∈ root, WFnames (yd.2.map (fun x => x.1)) 2 ∧
    ∀ md ∈ yd.2, WFnames (md.2.map (fun x => x.1)) 2 ∧
      ∀ dd ∈ md.2, WFfileNames (dd.2.map (fun x => x.1))

theorem shape_drop11 {p : Name} (hp : p.length = 11) (c1 c2 sep c3 c4 : Char) (r : Name) :
    (p ++ c1 :: c2 :: sep :: c3 :: c4 :: r).drop 11 = c1 :: c2 :: sep :: c3 :: c4 :: r := by
  rw [← hp]
  exact List.drop_left _ _

theorem tsOfFile_shape {p : Name} (hp : p.length = 11) (y m dd : Nat)
    (c1 c2 sep c3 c4 : Char) (r : Name) :
    tsOfFile y m dd (p ++ c1 :: c2 :: sep :: c3 :: c4 :: r)
      = mkTimestamp y m dd ((c1.toNat - 48) * 10 + (c2.toNat - 48))
          ((c3.toNat - 48) * 10 + (c4.toNat - 48)) := by
  unfold tsOfFile
  have h11 := shape_drop11 hp c1 c2 sep c3 c4 r
  have h14 : (p ++ c1 :: c2 :: sep :: c3 :: c4 :: r).drop 14 = c3 :: c4 :: r := by
    have : (14 : Nat) = 11 + 3 := rfl
    rw [this, ← List.drop_drop, h11]
    rfl
  rw [h11, h14]
  have ht1 : (c1 :: c2 :: sep :: c3 :: c4 :: r).take 2 = [c1, c2] := rfl
  have ht2 : (c3 :: c4 :: r).take 2 = [c3, c4] := rfl
  rw [ht1, ht2, digitsVal_pair, digitsVal_pair]

theorem mkTimestamp_split (y m d h mi : Nat) :
    mkTimestamp y m d h mi = ((y * 100 + m) * 100 + d) * 10000 + (h * 100 + mi) := by
  unfold mkTimestamp
  ring

/-- Lexicographic comparison of two well-formed file names (same stem, same
separator) implies comparison of their (hour, minute) keys. -/
theorem hm_key_mono {p : Name} {sep c1 c2 c3 c4 e1 e2 e3 e4 : Char} {r1 r2 : Name}
    (h1 : isDigitC c1) (h2 : isDigitC c2) (h3 : isDigitC c3) (h4 : isDigitC c4)
    (g1 : isDigitC e1) (g2 : isDigitC e2) (g3 : isDigitC e3) (g4 : isDigitC e4)
    (hle : lexLe (p ++ c1 :: c2 :: sep :: c3 :: c4 :: r1)
                 (p ++ e1 :: e2 :: sep :: e3 :: e4 :: r2) = true) :
    ((c1.toNat - 48) * 10 + (c2.toNat - 48)) * 100 + ((c3.toNat - 48) * 10 + (c4.toNat - 48))
      ≤ ((e1.toNat - 48) * 10 + (e2.toNat - 48)) * 100
          + ((e3.toNat - 48) * 10 + (e4.toNat - 48)) := by
  rw [lexLe_append_same] at hle
  obtain ⟨h1a, h1b⟩ := h1
  obtain ⟨h2a, h2b⟩ := h2
  obtain ⟨h3a, h3b⟩ := h3
  obtain ⟨h4a, h4b⟩ := h4
  obtain ⟨g1a, g1b⟩ := g1
  obtain ⟨g2a, g2b⟩ := g2
  obtain ⟨g3a, g3b⟩ := g3
  obtain ⟨g4a, g4b⟩ := g4
  rw [lexLe_cons] at hle
  rcases hle with h | ⟨q1, hle⟩
  · omega
  · rw [lexLe_cons] at hle
    rcases hle with h | ⟨q2, hle⟩
    · omega
    · rw [lexLe_cons] at hle
      rcases hle with h | ⟨q3, hle⟩
      · exact absurd h (Nat.lt_irrefl _)
      · rw [lexLe_cons] at hle
        rcases hle with h | ⟨q4, hle⟩
        · omega
        · rw [lexLe_cons] at hle
          rcases hle with h | ⟨q5, _⟩
          · omega
          · omega

/-- The files of one well-formed day directory, sorted by name, yield
timestamps that are nondecreasing and lie inside the day's slot. -/
theorem filesBlock_sorted_and_bounds (y m d : Nat) (files : DayDir)
    (hwf : WFfileNames (files.map (fun x => x.1))) :
    (filesBlock y m d files).Pairwise (fun u v => u.1 ≤ v.1) ∧
    ∀ x ∈ filesBlock y m d files,
      ((y * 100 + m) * 100 + d) * 10000 ≤ x.1 ∧
      x.1 < ((y * 100 + m) * 100 + d) * 10000 + 10000 := by
  obtain ⟨p, sep, hp, hshape⟩ := hwf
  constructor
  · unfold filesBlock
    rw [List.pairwise_map]
    refine (listdir_sorted files).imp_of_mem ?_
    intro f1 f2 hm1 hm2 hle
    obtain ⟨c1, c2, c3, c4, r1, hn1, d1, d2, d3, d4⟩ :=
      hshape f1.1 (List.mem_map_of_mem _ (listdir_mem.mp hm1))
    obtain ⟨e1, e2, e3, e4, r2, hn2, g1, g2, g3, g4⟩ :=
      hshape f2.1 (List.mem_map_of_mem _ (listdir_mem.mp hm2))
    show tsOfFile y m d f1.1 ≤ tsOfFile y m d f2.1
    rw [hn1, hn2, tsOfFile_shape hp, tsOfFile_shape hp,
      mkTimestamp_split, mkTimestamp_split]
    have hkey := hm_key_mono d1 d2 d3 d4 g1 g2 g3 g4 (by rw [← hn1, ← hn2]; exact hle)
    omega
  · intro x hx
    unfold filesBlock at hx
    rw [List.mem_map] at hx
    obtain ⟨f, hf, rfl⟩ := hx
    obtain ⟨c1, c2, c3, c4, r, hn, hd1, hd2, hd3, hd4⟩ :=
      hshape f.1 (List.mem_map_of_mem _ (listdir_mem.mp hf))
    show _ ≤ tsOfFile y m d f.1 ∧ tsOfFile y m d f.1 < _
    rw [hn, tsOfFile_shape hp, mkTimestamp_split]
    obtain ⟨a1, a2⟩ := hd1
    obtain ⟨b1, b2⟩ := hd2
    obtain ⟨u1, u2⟩ := hd3
    obtain ⟨v1, v2⟩ := hd4
    omega

/-- Names that are equal-width digit strings and sorted with distinct names
have strictly increasing numeric values. -/
theorem digitsVal_strict {n1 n2 : Name} {width : Nat}
    (h1 : n1.length = width ∧ ∀ c ∈ n1, isDigitC c)
    (h2 : n2.length = width ∧ ∀ c ∈ n2, isDigitC c)
    (hle : lexLe n1 n2 = true) (hne : n1 ≠ n2) :
    digitsVal n1 < digitsVal n2 := by
  have hlev := lexLe_digitsVal n1 n2 (by rw [h1.1, h2.1]) h1.2 h2.2 hle
  rcases Nat.lt_or_ge (digitsVal n1) (digitsVal n2) with h | h
  · exact h
  · have heq : digitsVal n1 = digitsVal n2 := le_antisymm hlev h
    exact absurd (digitsVal_inj n1 n2 (by rw [h1.1, h2.1]) h1.2 h2.2 heq) hne

/-- Two-digit strings denote values below 100. -/
theorem digitsVal_lt_100 {n : Name} (h : n.length = 2 ∧ ∀ c ∈ n, isDigitC c) :
    digitsVal n < 100 := by
  have := digitsVal_lt n h.2
  rw [h.1] at this
  simpa using this

theorem daysBlock_sorted_and_bounds (y m : Nat) (days : MonthDir)
    (hn : WFnames (days.map (fun x => x.1)) 2)
    (hf : ∀ dd ∈ days, WFfileNames (dd.2.map (fun x => x.1))) :
    (daysBlock y m days).Pairwise (fun u v => u.1 ≤ v.1) ∧
    ∀ x ∈ daysBlock y m days,
      (y * 100 + m) * 1000000 ≤ x.1 ∧ x.1 < (y * 100 + m) * 1000000 + 1000000 := by
  obtain ⟨hnodup, hprops⟩ := hn
  have hboundOf : ∀ dd ∈ listdir days, ∀ x ∈ filesBlock y m (digitsVal dd.1) dd.2,
      ((y * 100 + m) * 100 + digitsVal dd.1) * 10000 ≤ x.1 ∧
      x.1 < ((y * 100 + m) * 100 + digitsVal dd.1) * 10000 + 10000 :=
    fun dd hdd => (filesBlock_sorted_and_bounds y m (digitsVal dd.1) dd.2
      (hf dd (listdir_mem.mp hdd))).2
  constructor
  · unfold daysBlock
    apply pairwise_flatMap_of
    · intro dd hdd
      exact (filesBlock_sorted_and_bounds y m (digitsVal dd.1) dd.2
        (hf dd (listdir_mem.mp hdd))).1
    · have hne : (listdir days).Pairwise (fun a b => a.1 ≠ b.1) := by
        have hnd := listdir_names_nodup hnodup
        rw [List.Nodup, List.pairwise_map] at hnd
        exact hnd
      refine ((listdir_sorted days).and hne).imp_of_mem ?_
      intro dd1 dd2 hm1 hm2 hcc
      obtain ⟨hle, hneq⟩ := hcc
      have hp1 := hprops dd1.1 (List.mem_map_of_mem _ (listdir_mem.mp hm1))
      have hp2 := hprops dd2.1 (List.mem_map_of_mem _ (listdir_mem.mp hm2))
      have hlt : digitsVal dd1.1 < digitsVal dd2.1 := digitsVal_strict hp1 hp2 hle hneq
      intro u hu v hv
      have hub := hboundOf dd1 hm1 u hu
      have hvb := hboundOf dd2 hm2 v hv
      have hstep : ((y * 100 + m) * 100 + digitsVal dd1.1) + 1
          ≤ (y * 100 + m) * 100 + digitsVal dd2.1 := by omega
      have hmul := Nat.mul_le_mul_right 10000 hstep
      omega
  · intro x hx
    unfold daysBlock at hx
    rw [List.mem_flatMap] at hx
    obtain ⟨dd, hdd, hxb⟩ := hx
    have hb := hboundOf dd hdd x hxb
    have hdlt : digitsVal dd.1 < 100 :=
      digitsVal_lt_100 (hprops dd.1 (List.mem_map_of_mem _ (listdir_mem.mp hdd)))
    omega

theorem monthsBlock_sorted_and_bounds (y : Nat) (months : YearDir)
    (hn : WFnames (months.map (fun x => x.1)) 2)
    (hrest : ∀ md ∈ months, WFnames (md.2.map (fun x => x.1)) 2 ∧
      ∀ dd ∈ md.2, WFfileNames (dd.2.map (fun x => x.1))) :
    (monthsBlock y months).Pairwise (fun u v => u.1 ≤ v.1) ∧
    ∀ x ∈ monthsBlock y months,
      y * 100000000 ≤ x.1 ∧ x.1 < y * 100000000 + 100000000 := by
  obtain ⟨hnodup, hprops⟩ := hn
  have hboundOf : ∀ md ∈ listdir months, ∀ x ∈ daysBlock y (digitsVal md.1) md.2,
      (y * 100 + digitsVal md.1) * 1000000 ≤ x.1 ∧
      x.1 < (y * 100 + digitsVal md.1) * 1000000 + 1000000 := by
    intro md hmd
    obtain ⟨hn2, hfd⟩ := hrest md (listdir_mem.mp hmd)
    exact (daysBlock_sorted_and_bounds y (digitsVal md.1) md.2 hn2 hfd).2
  constructor
  · unfold monthsBlock
    apply pairwise_flatMap_of
    · intro md hmd
      obtain ⟨hn2, hfd⟩ := hrest md (listdir_mem.mp hmd)
      exact (daysBlock_sorted_and_bounds y (digitsVal md.1) md.2 hn2 hfd).1
    · have hne : (listdir months).Pairwise (fun a b => a.1 ≠ b.1) := by
        have hnd := listdir_names_nodup hnodup
        rw [List.Nodup, List.pairwise_map] at hnd
        exact hnd
      refine ((listdir_sorted months).and hne).imp_of_mem ?_
      intro md1 md2 hm1 hm2 hcc
      obtain ⟨hle, hneq⟩ := hcc
      have hp1 := hprops md1.1 (List.mem_map_of_mem _ (listdir_mem.mp hm1))
      have hp2 := hprops md2.1 (List.mem_map_of_mem _ (listdir_mem.mp hm2))
      have hlt : digitsVal md1.1 < digitsVal md2.1 := digitsVal_strict hp1 hp2 hle hneq
      intro u hu v hv
      have hub := hboundOf md1 hm1 u hu
      have hvb := hboundOf md2 hm2 v hv
      have hstep : (y * 100 + digitsVal md1.1) + 1 ≤ y * 100 + digitsVal md2.1 := by omega
      have hmul := Nat.mul_le_mul_right 1000000 hstep
      omega
  · intro x hx
    unfold monthsBlock at hx
    rw [List.mem_flatMap] at hx
    obtain ⟨md, hmd, hxb⟩ := hx
    have hb := hboundOf md hmd x hxb
    have hmlt : digitsVal md.1 < 100 :=
      digitsVal_lt_100 (hprops md.1 (List.mem_map_of_mem _ (listdir_mem.mp hmd)))
    omega

theorem flatFiles_sorted (root : CategoryDir) (hwf : WellFormedRoot root) :
    (flatFiles root).Pairwise (fun u v => u.1 ≤ v.1) := by
  obtain ⟨⟨wy, hynodup, hyprops⟩, hrest⟩ := hwf
  have hboundOf : ∀ yd ∈ listdir root, ∀ x ∈ monthsBlock (digitsVal yd.1) yd.2,
      digitsVal yd.1 * 100000000 ≤ x.1 ∧
      x.1 < digitsVal yd.1 * 100000000 + 100000000 := by
    intro yd hyd
    obtain ⟨hn2, hmd⟩ := hrest yd (listdir_mem.mp hyd)
    exact (monthsBlock_sorted_and_bounds (digitsVal yd.1) yd.2 hn2 hmd).2
  unfold flatFiles
  apply pairwise_flatMap_of
  · intro yd hyd
    obtain ⟨hn2, hmd⟩ := hrest yd (listdir_mem.mp hyd)
    exact (monthsBlock_sorted_and_bounds (digitsVal yd.1) yd.2 hn2 hmd).1
  · have hne : (listdir root).Pairwise (fun a b => a.1 ≠ b.1) := by
      have hnd := listdir_names_nodup hynodup
      rw [List.Nodup, List.pairwise_map] at hnd
      exact hnd
    refine ((listdir_sorted root).and hne).imp_of_mem ?_
    intro yd1 yd2 hm1 hm2 hcc
    obtain ⟨hle, hneq⟩ := hcc
    have hp1 := hyprops yd1.1 (List.mem_map_of_mem _ (listdir_mem.mp hm1))
    have hp2 := hyprops yd2.1 (List.mem_map_of_mem _ (listdir_mem.mp hm2))
    have hlt : digitsVal yd1.1 < digitsVal yd2.1 := digitsVal_strict hp1 hp2 hle hneq
    intro u hu v hv
    have hub := hboundOf yd1 hm1 u hu
    have hvb := hboundOf yd2 hm2 v hv
    have hmul := Nat.mul_le_mul_right 100000000 hlt
    omega

theorem runFiles_fst_sublist :
    ∀ l : List (Nat × ArchiveFile),
      ((runFiles l).1.map (fun x => x.1)).Sublist (l.map (fun x => x.1))
  | [] => by simp [runFiles]
  | (ts, af) :: rest => by
    cases haf : extract_data af with
    | error e =>
      simp only [runFiles, haf, List.map_nil, List.map_cons]
      exact List.nil_sublist _
    | ok p =>
      simp only [runFiles, haf, List.map_cons]
      exact (runFiles_fst_sublist rest).cons₂ _

/-- C7: for every well-formed data root (zero-padded numeric year/month/day
directory names, filenames encoding hour and minute at fixed positions), the
timestamps of the (timestamp, payload) pairs produced by walking a category
are nondecreasing — a consequence of the lexicographic sorting of directory
entries at each of the four nesting levels. -/
theorem C7_walk_sorted (root : CategoryDir) (hwf : WellFormedRoot root) :
    List.Sorted (fun a b => a ≤ b) ((walk_category root).1.map (fun x => x.1)) := by
  rw [walk_category_eq_runFiles]
  have hflat : ((flatFiles root).map (fun x => x.1)).Pairwise (fun a b => a ≤ b) :=
    List.pairwise_map.mpr (flatFiles_sorted root hwf)
  exact List.Pairwise.sublist (runFiles_fst_sublist (flatFiles root)) hflat

/-- A concrete well-formed data root holding the files
2023-01-04T23:00, 2023-01-05T07:30 and 2023-01-05T08:00. -/
def exTree2 : CategoryDir :=
  [("2023".data,
    [("01".data,
      [("04".data, [("2023-01-04T23:00:00.tar.gz".data, ArchiveFile.json [])]),
       ("05".data,
        [("2023-01-05T07:30:00.tar.gz".data, ArchiveFile.json []),
         ("2023-01-05T08:00:00.tar.gz".data, ArchiveFile.json [])])])])]

theorem C7_walk_sorted_witness :
    List.Sorted (fun a b => a ≤ b) ((walk_category exTree2).1.map (fun x => x.1)) := by
  apply C7_walk_sorted
  refine ⟨⟨4, by decide⟩, ?_⟩
  intro yd hyd
  simp only [exTree2, List.mem_singleton] at hyd
  subst hyd
  refine ⟨by decide, ?_⟩
  intro md hmd
  simp only [List.mem_singleton] at hmd
  subst hmd
  refine ⟨by decide, ?_⟩
  intro dd hdd
  simp only [List.mem_cons, List.mem_singleton] at hdd
  rcases hdd with h | h | h
  · subst h
    refine ⟨"2023-01-04T".data, ':', by decide, ?_⟩
    intro n hn
    simp only [List.map_cons, List.map_nil, List.mem_singleton] at hn
    subst hn
    exact ⟨'2', '3', '0', '0', ":00.tar.gz".data, by decide,
           by decide, by decide, by decide, by decide⟩
  · subst h
    refine ⟨"2023-01-05T".data, ':', by decide, ?_⟩
    intro n hn
    simp only [List.map_cons, List.map_nil, List.mem_cons, List.not_mem_nil,
      or_false] at hn
    rcases hn with h2 | h2
    · subst h2
      exact ⟨'0', '7', '3', '0', ":00.tar.gz".data, by decide,
             by decide, by decide, by decide, by decide⟩
    · subst h2
      exact ⟨'0', '8', '0', '0', ":00.tar.gz".data, by decide,
             by decide, by decide, by decide, by decide⟩
  · exact absurd h (by simp)

end TflData
